import Mathlib

set_option linter.unusedVariables false
set_option linter.unusedSectionVars false

/-!
# Shallow embedding of the chained hash table (`src/src/lib.rs`)

The Rust source implements a separate-chaining hash table:

* `HashMap<K, V>` holds `buckets : Vec<Vec<(K, V)>>` and a counter `items`.
* `resize_pred items buckets = items >= 3 * buckets / 4` decides growth.
* `insert`, `entry` run the growth check first, then locate the bucket
  `hash(key) % bucket_count` and scan the chain.
* `remove` swap-removes within the chain; `get`/`contains_key` only read.
* Iteration walks buckets in index order, chains in position order.

Modelling conventions:

* Machine integers (`usize`, `u64`) are modelled as `Nat`; `DefaultHasher`
  is modelled as a fixed function `hashFn : K → Nat` standing for the
  64-bit digest of a key (the code only ever uses the digest modulo the
  bucket count, and the hasher is deterministic per key).
* Rust panics are modelled as `none` in an outer `Option`: an operation of
  result type `Option A` returns `none` exactly when the Rust code would
  abort (`% 0` in `bucket`, `expect` in `Index::index`).  In particular
  `hash % bucket_count` with `bucket_count = 0` is a divide-by-zero panic.
* Mutation is explicit state passing: a mutating operation returns the new
  table together with the Rust return value.
-/

namespace LinkedHashMap

/-- `const INITIAL_BUCKETS: usize = 1`. -/
def INITIAL_BUCKETS : Nat := 1

/-- `const BUCKET_SCALE_FACTOR: usize = 2`. -/
def BUCKET_SCALE_FACTOR : Nat := 2

/-- `const RESIZE_NUM: usize = 3`. -/
def RESIZE_NUM : Nat := 3

/-- `const RESIZE_DEN: usize = 4`. -/
def RESIZE_DEN : Nat := 4

/-- `fn resize_pred(items, buckets) -> bool { items >= RESIZE_NUM * buckets / RESIZE_DEN }`. -/
def resize_pred (items buckets : Nat) : Bool :=
  decide (RESIZE_NUM * buckets / RESIZE_DEN ≤ items)

/-- `struct HashMap<K, V> { buckets: Vec<Vec<(K, V)>>, items: usize }`. -/
structure HashMap (K V : Type) where
  buckets : List (List (K × V))
  items : Nat
deriving Repr, DecidableEq

variable {K V S : Type} [DecidableEq K]

/-- `HashMap::new()`: empty bucket vector, zero items. -/
def HashMap.new : HashMap K V :=
  { buckets := [], items := 0 }

variable (hashFn : K → Nat)

/-- `fn bucket(&self, key) -> usize`: `hash(key) % buckets.len()`.
`none` models the Rust divide-by-zero panic when there are no buckets. -/
def bucketIdx (m : HashMap K V) (k : K) : Option Nat :=
  if m.buckets.length = 0 then none
  else some (hashFn k % m.buckets.length)

/-- One step of the rehash loop body: push pair `p` onto bucket `i`
(`new_buckets[hash % target].push((key, value))`). -/
def pushAt (bs : List (List (K × V))) (i : Nat) (p : K × V) : List (List (K × V)) :=
  bs.set i (bs.getD i [] ++ [p])

/-- The rehash loop of `fn resize`: drain all pairs (in bucket order, chain
order) and push each onto bucket `hash % target` of a fresh array of
`target` empty buckets. -/
def rehash (target : Nat) (ps : List (K × V)) : List (List (K × V)) :=
  ps.foldl (fun bs p => pushAt bs (hashFn p.1 % target) p) (List.replicate target [])

/-- `fn resize(&mut self)`: target size is `1` from `0`, else double; every
stored pair is rehashed into the new bucket array; `items` is untouched. -/
def resize (m : HashMap K V) : HashMap K V :=
  let target_size := match m.buckets.length with
    | 0 => INITIAL_BUCKETS
    | x => x * BUCKET_SCALE_FACTOR
  { buckets := rehash hashFn target_size m.buckets.flatten, items := m.items }

/-- The growth-check prelude shared by `insert` and `entry`:
`if resize_pred(self.items, self.buckets.len()) { self.resize(); }`. -/
def grown (m : HashMap K V) : HashMap K V :=
  if resize_pred m.items m.buckets.length then resize hashFn m else m

/-- `pub fn get(&self, key) -> Option<&V>`: locate the bucket (panic = outer
`none` if there are no buckets), then scan the chain for an equal key. -/
def get (m : HashMap K V) (k : K) : Option (Option V) :=
  match bucketIdx hashFn m k with
  | none => none
  | some i => some (((m.buckets.getD i []).find? (fun p => decide (p.1 = k))).map Prod.snd)

/-- `pub fn contains_key(&self, key) -> bool`: `get(key).is_some()`. -/
def contains_key (m : HashMap K V) (k : K) : Option Bool :=
  (get hashFn m k).map Option.isSome

/-- `Vec::swap_remove(i)`: overwrite slot `i` with the last element, then
pop the last element.  Only called with `i` in bounds (so the list is
nonempty); on the empty list we return `[]`. -/
def swap_remove (l : List α) (i : Nat) : List α :=
  match l.getLast? with
  | some last => (l.set i last).dropLast
  | none => []

/-- `pub fn remove(&mut self, key) -> Option<V>`: locate the bucket (panic
= outer `none` when there are no buckets), find the key's position (early
return with the table unchanged when absent), then decrement `items` and
swap-remove the pair, returning its value. -/
def remove (m : HashMap K V) (k : K) : Option (HashMap K V × Option V) :=
  match bucketIdx hashFn m k with
  | none => none
  | some i =>
    let b := m.buckets.getD i []
    match b.findIdx? (fun p => decide (p.1 = k)) with
    | none => some (m, none)
    | some pos =>
      some ({ buckets := m.buckets.set i (swap_remove b pos), items := m.items - 1 },
            (b[pos]?).map Prod.snd)

/-- `pub fn len(&self) -> usize { self.items }`. -/
def len (m : HashMap K V) : Nat :=
  m.items

/-- The in-place value replacement done by `insert` when it finds an equal
key: `mem::replace(e_value, value)` on the first chain entry whose key
matches. -/
def replaceValue (k : K) (v : V) : List (K × V) → List (K × V)
  | [] => []
  | p :: rest => if p.1 = k then (p.1, v) :: rest else p :: replaceValue k v rest

/-- `pub fn insert(&mut self, key, value) -> Option<V>`: growth check
first, then locate the bucket and scan the chain; replace in place and
return the old value, or append and increment `items`. -/
def insert (m : HashMap K V) (k : K) (v : V) : Option (HashMap K V × Option V) :=
  let m1 := grown hashFn m
  match bucketIdx hashFn m1 k with
  | none => none
  | some i =>
    let b := m1.buckets.getD i []
    match b.find? (fun p => decide (p.1 = k)) with
    | some p => some ({ m1 with buckets := m1.buckets.set i (replaceValue k v b) }, some p.2)
    | none =>
      some ({ buckets := m1.buckets.set i (b ++ [(k, v)]), items := m1.items + 1 }, none)

/-- `pub fn entry(&mut self, key) -> Entry`: growth check first, then one
lookup pass.  The result models the `Entry` enum: the post-growth table,
the target bucket index, and `some v₀` when `Occupied` with current value
`v₀` (`none` when `Vacant`). -/
def entry (m : HashMap K V) (k : K) : Option (HashMap K V × Nat × Option V) :=
  let m1 := grown hashFn m
  match bucketIdx hashFn m1 k with
  | none => none
  | some i =>
    some (m1, i, ((m1.buckets.getD i []).find? (fun p => decide (p.1 = k))).map Prod.snd)

/-- `VacantEntry::insert(value)`: push `(key, value)` onto the recorded
bucket of the post-growth table and increment `items`; the returned
reference points at the value just stored. -/
def vacant_insert (m : HashMap K V) (i : Nat) (k : K) (v : V) : HashMap K V :=
  { buckets := m.buckets.set i (m.buckets.getD i [] ++ [(k, v)]), items := m.items + 1 }

/-- `entry(key).or_insert(value)`: Occupied returns the existing value and
leaves the (post-growth) table as is; Vacant stores `(key, value)` and
returns it. -/
def or_insert (m : HashMap K V) (k : K) (v : V) : Option (HashMap K V × V) :=
  match entry hashFn m k with
  | none => none
  | some (m1, i, found) =>
    match found with
    | some v0 => some (m1, v0)
    | none => some (vacant_insert m1 i k v, v)

/-- `entry(key).or_insert_with(producer)` with an effectful producer
threaded through an explicit state `S` (so that "the producer ran" is
observable as a state change): Occupied returns the existing value without
touching the producer state; Vacant runs the producer once and stores the
produced value. -/
def or_insert_with (m : HashMap K V) (k : K) (producer : S → S × V) (s : S) :
    Option (HashMap K V × V × S) :=
  match entry hashFn m k with
  | none => none
  | some (m1, i, found) =>
    match found with
    | some v0 => some (m1, v0, s)
    | none =>
      let sv := producer s
      some (vacant_insert m1 i k sv.2, sv.2, sv.1)

/-- `entry(key).or_default()`: `or_insert` with the value type's default. -/
def or_default [Inhabited V] (m : HashMap K V) (k : K) : Option (HashMap K V × V) :=
  or_insert hashFn m k default

/-- `Index::index`: `self.get(index).expect("no entry found for key")`.
`none` models the abort, whether raised by `get`'s divide-by-zero or by
`expect` on an absent key. -/
def index (m : HashMap K V) (k : K) : Option V :=
  match get hashFn m k with
  | some (some v) => some v
  | _ => none

/-- `struct HMIter { bucket: usize, item: usize }` (the map reference
itself is passed explicitly to `iterNext`). -/
structure HMIter where
  bucket : Nat
  item : Nat
deriving Repr, DecidableEq

/-- `into_iter` for `&HashMap`: cursor at bucket 0, item 0. -/
def into_iter : HMIter :=
  { bucket := 0, item := 0 }

/-- `Iterator::next` for `HMIter`: if the current bucket exists and still
has an item at the cursor, yield it and advance the item index; if the
bucket is exhausted, move to the next bucket at item 0 and retry; if no
bucket remains, the iterator is exhausted (`none`). -/
def iterNext (m : HashMap K V) (it : HMIter) : Option (HMIter × (K × V)) :=
  if h : it.bucket < m.buckets.length then
    match (m.buckets.getD it.bucket [])[it.item]? with
    | some p => some (⟨it.bucket, it.item + 1⟩, p)
    | none => iterNext m ⟨it.bucket + 1, 0⟩
  else none
termination_by m.buckets.length - it.bucket
decreasing_by omega

/-- The emitted-sequence relation of the iterator: `Emits m it l itF` holds
when, starting from cursor `it`, successive `iterNext` calls yield exactly
the pairs of `l` in order and leave the cursor at `itF`, where the iterator
is exhausted. -/
inductive Emits (m : HashMap K V) : HMIter → List (K × V) → HMIter → Prop
  | done (it : HMIter) (hnone : iterNext m it = none) : Emits m it [] it
  | step (it it' itF : HMIter) (p : K × V) (l : List (K × V))
      (hstep : iterNext m it = some (it', p)) (hrest : Emits m it' l itF) :
      Emits m it (p :: l) itF

/-- Abstraction function: the mapping stored in the table, read directly
off the flattened buckets (first pair with the key wins, matching the
chain scans of the code). -/
def model (m : HashMap K V) (k : K) : Option V :=
  (m.buckets.flatten.find? (fun p => decide (p.1 = k))).map Prod.snd

/-- Well-formedness of a table: `items` counts the stored pairs, every
pair sits in the bucket selected by its key's hash, and keys are
pairwise distinct. -/
def WF (m : HashMap K V) : Prop :=
  m.items = m.buckets.flatten.length ∧
  (∀ i, i < m.buckets.length →
    ∀ p ∈ m.buckets.getD i [], hashFn p.1 % m.buckets.length = i) ∧
  (m.buckets.flatten.map Prod.fst).Nodup

/-- The load-factor bound claimed by the spec after insert/entry calls. -/
def LoadInv (m : HashMap K V) : Prop :=
  m.items ≤ RESIZE_NUM * m.buckets.length / RESIZE_DEN + 1

/-- States reachable from `HashMap::new()` by the mutating operations
(insert, remove, the entry protocol's terminal operations, and resize). -/
inductive Reachable : HashMap K V → Prop
  | new : Reachable HashMap.new
  | insert (m m' : HashMap K V) (k : K) (v : V) (r : Option V) :
      Reachable m → insert hashFn m k v = some (m', r) → Reachable m'
  | remove (m m' : HashMap K V) (k : K) (r : Option V) :
      Reachable m → remove hashFn m k = some (m', r) → Reachable m'
  | or_insert (m m' : HashMap K V) (k : K) (v rv : V) :
      Reachable m → or_insert hashFn m k v = some (m', rv) → Reachable m'
  | or_insert_with (m m' : HashMap K V) (k : K) (producer : Nat → Nat × V)
      (s s' : Nat) (rv : V) :
      Reachable m → or_insert_with hashFn m k producer s = some (m', rv, s') →
      Reachable m'
  | resize (m : HashMap K V) : Reachable m → Reachable (resize hashFn m)

/-! ## List-level helper lemmas -/

theorem replaceValue_length (k : K) (v : V) (l : List (K × V)) :
    (replaceValue k v l).length = l.length := by
  induction l with
  | nil => rfl
  | cons p rest ih => by_cases h : p.1 = k <;> simp [replaceValue, h, ih]

theorem replaceValue_keys (k : K) (v : V) (l : List (K × V)) :
    (replaceValue k v l).map Prod.fst = l.map Prod.fst := by
  induction l with
  | nil => rfl
  | cons p rest ih => by_cases h : p.1 = k <;> simp [replaceValue, h, ih]

theorem find?_replaceValue (k : K) (v : V) (l : List (K × V)) :
    (replaceValue k v l).find? (fun p => decide (p.1 = k)) =
      (l.find? (fun p => decide (p.1 = k))).map (fun q => (q.1, v)) := by
  induction l with
  | nil => rfl
  | cons p rest ih =>
    by_cases h : p.1 = k
    · simp [replaceValue, h]
    · simp [replaceValue, h, ih]

theorem find?_replaceValue_ne (k k' : K) (v : V) (l : List (K × V)) (hne : k' ≠ k) :
    (replaceValue k v l).find? (fun p => decide (p.1 = k')) =
      l.find? (fun p => decide (p.1 = k')) := by
  induction l with
  | nil => rfl
  | cons p rest ih =>
    simp only [replaceValue]
    by_cases h : p.1 = k
    · have h1 : ¬(p.1 = k') := fun hc => hne (by rw [← hc, h])
      rw [if_pos h, List.find?_cons_of_neg _ (by simpa using h1),
        List.find?_cons_of_neg _ (by simpa using h1)]
    · rw [if_neg h]
      by_cases h2 : p.1 = k'
      · rw [List.find?_cons_of_pos _ (by simpa using h2),
          List.find?_cons_of_pos _ (by simpa using h2)]
      · rw [List.find?_cons_of_neg _ (by simpa using h2),
          List.find?_cons_of_neg _ (by simpa using h2), ih]

theorem find?_eq_findIdx?_bind (p : α → Bool) (l : List α) :
    l.find? p = (l.findIdx? p).bind (fun i => l[i]?) := by
  induction l with
  | nil => rfl
  | cons a l ih =>
    by_cases h : p a
    · simp [List.findIdx?_cons, h]
    · cases hfi : l.findIdx? p <;>
        simp [List.findIdx?_cons, h, ih, hfi]

theorem findIdx?_lt_length {p : α → Bool} {l : List α} {i : Nat}
    (h : l.findIdx? p = some i) : i < l.length := by
  induction l generalizing i with
  | nil => simp [List.findIdx?_nil] at h
  | cons a l ih =>
    rw [List.findIdx?_cons] at h
    simp only [List.length_cons]
    by_cases hp : p a
    · simp [hp] at h
      omega
    · simp [hp] at h
      obtain ⟨j, hj, rfl⟩ := h
      have := ih hj
      omega

theorem swap_remove_cons_succ (a b : α) (l : List α) (j : Nat) :
    swap_remove (a :: b :: l) (j + 1) = a :: swap_remove (b :: l) j := by
  have hne : (b :: l) ≠ [] := by simp
  obtain ⟨last, hlast⟩ : ∃ last, (b :: l).getLast? = some last :=
    ⟨(b :: l).getLast hne, List.getLast?_eq_getLast _ hne⟩
  have h2 : (a :: b :: l).getLast? = some last := by
    rw [List.getLast?_cons_cons, hlast]
  simp only [swap_remove, h2, hlast]
  rw [List.set_cons_succ]
  exact List.dropLast_cons_of_ne_nil (by simp)

theorem swap_remove_perm (l : List α) (i : Nat) (x : α) (h : l[i]? = some x) :
    l.Perm (x :: swap_remove l i) := by
  induction l generalizing i with
  | nil => simp at h
  | cons a l ih =>
    cases l with
    | nil =>
      have hi : i = 0 := by
        by_contra hne
        rw [List.getElem?_eq_none (by simp; omega)] at h
        exact Option.noConfusion h
      subst hi
      obtain rfl : a = x := by simpa using h
      show [a].Perm (a :: swap_remove [a] 0)
      simp [swap_remove]
    | cons b l' =>
      cases i with
      | zero =>
        obtain rfl : a = x := by simpa using h
        have hne : (b :: l') ≠ [] := by simp
        obtain ⟨last, hlast⟩ : ∃ last, (b :: l').getLast? = some last :=
          ⟨(b :: l').getLast hne, List.getLast?_eq_getLast _ hne⟩
        have h2 : (a :: b :: l').getLast? = some last := by
          rw [List.getLast?_cons_cons, hlast]
        simp only [swap_remove, h2, List.set_cons_zero]
        rw [List.dropLast_cons_of_ne_nil (by simp)]
        refine List.Perm.cons a ?_
        obtain ⟨ys, hys⟩ := List.getLast?_eq_some_iff.mp hlast
        rw [hys, List.dropLast_concat]
        exact List.perm_append_singleton last ys
      | succ j =>
        have h' : (b :: l')[j]? = some x := by simpa using h
        rw [swap_remove_cons_succ]
        exact (List.Perm.cons a (ih _ h')).trans (List.Perm.swap x a _)

theorem pushAt_length (bs : List (List (K × V))) (i : Nat) (p : K × V) :
    (pushAt bs i p).length = bs.length :=
  List.length_set bs i _

theorem pushAt_flatten_perm (bs : List (List (K × V))) (i : Nat) (p : K × V)
    (h : i < bs.length) :
    (pushAt bs i p).flatten.Perm (bs.flatten ++ [p]) := by
  induction bs generalizing i with
  | nil => simp at h
  | cons b bs ih =>
    cases i with
    | zero =>
      simp only [pushAt, List.set_cons_zero, List.flatten_cons, List.getD_eq_getElem?_getD]
      simp only [List.getElem?_cons_zero, Option.getD_some]
      rw [List.append_assoc, List.append_assoc]
      exact List.Perm.append_left b (List.perm_append_comm)
    | succ j =>
      have hj : j < bs.length := by simpa using h
      have ihj := ih j hj
      simp only [pushAt, List.set_cons_succ, List.flatten_cons, List.getD_eq_getElem?_getD] at *
      simp only [List.getElem?_cons_succ] at *
      rw [List.append_assoc]
      refine (List.Perm.append_left b ihj).trans ?_
      rw [← List.append_assoc]

theorem foldl_pushAt_length (f : K × V → Nat) (ps : List (K × V))
    (bs : List (List (K × V))) :
    (ps.foldl (fun acc p => pushAt acc (f p) p) bs).length = bs.length := by
  induction ps generalizing bs with
  | nil => rfl
  | cons p ps ih => rw [List.foldl_cons, ih, pushAt_length]

theorem pushAt_getD_same (bs : List (List (K × V))) (i : Nat) (p : K × V)
    (h : i < bs.length) :
    (pushAt bs i p).getD i [] = bs.getD i [] ++ [p] := by
  simp [pushAt, List.getD_eq_getElem?_getD, List.getElem?_set_self h]

theorem pushAt_getD_ne (bs : List (List (K × V))) (i j : Nat) (p : K × V)
    (h : i ≠ j) :
    (pushAt bs i p).getD j [] = bs.getD j [] := by
  simp [pushAt, List.getD_eq_getElem?_getD, List.getElem?_set_ne h]

theorem foldl_pushAt_getD (f : K × V → Nat) (ps : List (K × V))
    (bs : List (List (K × V))) (j : Nat) (hj : j < bs.length)
    (hf : ∀ p ∈ ps, f p < bs.length) :
    (ps.foldl (fun acc p => pushAt acc (f p) p) bs).getD j [] =
      bs.getD j [] ++ ps.filter (fun p => decide (f p = j)) := by
  induction ps generalizing bs with
  | nil => simp
  | cons p ps ih =>
    rw [List.foldl_cons]
    have hfp : f p < bs.length := hf p (by simp)
    have hrec := ih (pushAt bs (f p) p) (by rw [pushAt_length]; exact hj)
      (fun q hq => by rw [pushAt_length]; exact hf q (by simp [hq]))
    rw [hrec]
    by_cases hpj : f p = j
    · subst hpj
      rw [pushAt_getD_same bs (f p) p hfp]
      simp [List.filter_cons, List.append_assoc]
    · rw [pushAt_getD_ne bs (f p) j p hpj]
      simp [List.filter_cons, hpj]

theorem foldl_pushAt_flatten_perm (f : K × V → Nat) (ps : List (K × V))
    (bs : List (List (K × V))) (hf : ∀ p ∈ ps, f p < bs.length) :
    ((ps.foldl (fun acc p => pushAt acc (f p) p) bs).flatten).Perm
      (bs.flatten ++ ps) := by
  induction ps generalizing bs with
  | nil => simp
  | cons p ps ih =>
    rw [List.foldl_cons]
    have hfp : f p < bs.length := hf p (by simp)
    have h1 := ih (pushAt bs (f p) p)
      (fun q hq => by rw [pushAt_length]; exact hf q (by simp [hq]))
    refine h1.trans ?_
    refine (List.Perm.append_right ps (pushAt_flatten_perm bs (f p) p hfp)).trans ?_
    rw [List.append_assoc, List.singleton_append]

theorem flatten_replicate_nil (t : Nat) :
    (List.replicate t ([] : List α)).flatten = [] := by
  induction t with
  | zero => rfl
  | succ n ih => rw [List.replicate_succ, List.flatten_cons, ih]; rfl

theorem rehash_length (t : Nat) (ps : List (K × V)) :
    (rehash hashFn t ps).length = t := by
  unfold rehash
  rw [foldl_pushAt_length, List.length_replicate]

theorem rehash_getD (t : Nat) (ps : List (K × V)) (j : Nat) (ht : 0 < t)
    (hj : j < t) :
    (rehash hashFn t ps).getD j [] =
      ps.filter (fun p => decide (hashFn p.1 % t = j)) := by
  unfold rehash
  rw [foldl_pushAt_getD _ _ _ j (by simpa)
    (fun p _ => by simpa using Nat.mod_lt (hashFn p.1) ht)]
  simp [List.getD_eq_getElem?_getD, List.getElem?_replicate, hj]

theorem rehash_flatten_perm (t : Nat) (ps : List (K × V)) (ht : 0 < t) :
    ((rehash hashFn t ps).flatten).Perm ps := by
  unfold rehash
  have h := foldl_pushAt_flatten_perm (fun p => hashFn p.1 % t) ps
    (List.replicate t []) (fun p _ => by simpa using Nat.mod_lt (hashFn p.1) ht)
  rwa [flatten_replicate_nil, List.nil_append] at h

theorem flatten_expose (bs : List (List α)) (i : Nat) (h : i < bs.length) :
    bs.flatten = (bs.take i).flatten ++ (bs.getD i [] ++ (bs.drop (i + 1)).flatten) := by
  conv_lhs => rw [← List.take_append_drop i bs]
  rw [List.flatten_append, List.drop_eq_getElem_cons h, List.flatten_cons,
    List.getD_eq_getElem?_getD, List.getElem?_eq_getElem h, Option.getD_some]

theorem flatten_set (bs : List (List α)) (i : Nat) (b' : List α) (h : i < bs.length) :
    (bs.set i b').flatten = (bs.take i).flatten ++ (b' ++ (bs.drop (i + 1)).flatten) := by
  rw [List.set_eq_take_cons_drop _ h, List.flatten_append, List.flatten_cons]

theorem find?_key_eq_some_iff (l : List (K × V)) (hnd : (l.map Prod.fst).Nodup)
    (k : K) (q : K × V) :
    l.find? (fun p => decide (p.1 = k)) = some q ↔ q ∈ l ∧ q.1 = k := by
  induction l with
  | nil => simp
  | cons p rest ih =>
    rw [List.map_cons, List.nodup_cons] at hnd
    obtain ⟨hnotin, hnd'⟩ := hnd
    by_cases h : p.1 = k
    · rw [List.find?_cons_of_pos _ (by simpa using h)]
      constructor
      · intro hq
        exact ⟨(Option.some_inj.mp hq) ▸ List.mem_cons_self p rest,
          (Option.some_inj.mp hq) ▸ h⟩
      · rintro ⟨hmem, hqk⟩
        rcases List.mem_cons.mp hmem with rfl | hq
        · rfl
        · have hmp : q.1 ∈ List.map Prod.fst rest := List.mem_map_of_mem Prod.fst hq
          rw [hqk, ← h] at hmp
          exact absurd hmp hnotin
    · rw [List.find?_cons_of_neg _ (by simpa using h), ih hnd']
      constructor
      · rintro ⟨hm, hk⟩
        exact ⟨List.mem_cons_of_mem _ hm, hk⟩
      · rintro ⟨hm, hk⟩
        rcases List.mem_cons.mp hm with rfl | hm'
        · exact absurd hk h
        · exact ⟨hm', hk⟩

theorem find?_key_perm (l1 l2 : List (K × V)) (hp : l1.Perm l2)
    (hnd : (l1.map Prod.fst).Nodup) (k : K) :
    l1.find? (fun p => decide (p.1 = k)) = l2.find? (fun p => decide (p.1 = k)) := by
  have hnd2 : (l2.map Prod.fst).Nodup := ((hp.map Prod.fst).nodup_iff).mp hnd
  cases hf : l1.find? (fun p => decide (p.1 = k)) with
  | some q =>
    have hq := (find?_key_eq_some_iff l1 hnd k q).mp hf
    exact ((find?_key_eq_some_iff l2 hnd2 k q).mpr ⟨hp.mem_iff.mp hq.1, hq.2⟩).symm
  | none =>
    rw [List.find?_eq_none] at hf
    symm
    rw [List.find?_eq_none]
    intro x hx
    exact hf x (hp.mem_iff.mpr hx)

theorem WF.items_eq {m : HashMap K V} (h : WF hashFn m) :
    m.items = m.buckets.flatten.length := h.1

theorem WF.placement {m : HashMap K V} (h : WF hashFn m) :
    ∀ i, i < m.buckets.length →
      ∀ p ∈ m.buckets.getD i [], hashFn p.1 % m.buckets.length = i := h.2.1

theorem WF.nodupKeys {m : HashMap K V} (h : WF hashFn m) :
    (m.buckets.flatten.map Prod.fst).Nodup := h.2.2

theorem find?_flatten_eq_bucket (m : HashMap K V) (hwf : WF hashFn m) (k : K)
    (hpos : 0 < m.buckets.length) :
    m.buckets.flatten.find? (fun p => decide (p.1 = k)) =
      (m.buckets.getD (hashFn k % m.buckets.length) []).find?
        (fun p => decide (p.1 = k)) := by
  have hilt : hashFn k % m.buckets.length < m.buckets.length := Nat.mod_lt _ hpos
  cases hfb : (m.buckets.getD (hashFn k % m.buckets.length) []).find?
      (fun p => decide (p.1 = k)) with
  | some q =>
    have hq : q ∈ m.buckets.getD (hashFn k % m.buckets.length) [] :=
      List.mem_of_find?_eq_some hfb
    have hqk : q.1 = k := by simpa using List.find?_some hfb
    have hqfl : q ∈ m.buckets.flatten := by
      rw [List.mem_flatten]
      refine ⟨m.buckets.getD (hashFn k % m.buckets.length) [], ?_, hq⟩
      rw [List.getD_eq_getElem?_getD, List.getElem?_eq_getElem hilt, Option.getD_some]
      exact List.getElem_mem hilt
    exact (find?_key_eq_some_iff _ (hwf.nodupKeys hashFn) k q).mpr ⟨hqfl, hqk⟩
  | none =>
    rw [List.find?_eq_none] at hfb ⊢
    intro x hx hxk
    have hxk' : x.1 = k := by simpa using hxk
    rw [List.mem_flatten] at hx
    obtain ⟨b, hb, hxb⟩ := hx
    obtain ⟨j, hjlt, rfl⟩ := List.mem_iff_getElem.mp hb
    have hgd : m.buckets.getD j [] = m.buckets[j] := by
      rw [List.getD_eq_getElem?_getD, List.getElem?_eq_getElem hjlt, Option.getD_some]
    have hplace := hwf.placement hashFn j hjlt x (by rw [hgd]; exact hxb)
    have hji : j = hashFn k % m.buckets.length := by rw [← hplace, hxk']
    refine hfb x ?_ hxk
    rw [← hji, hgd]
    exact hxb

theorem get_eq_model (m : HashMap K V) (hwf : WF hashFn m)
    (hpos : 0 < m.buckets.length) (k : K) :
    get hashFn m k = some (model m k) := by
  unfold get bucketIdx model
  rw [if_neg (by omega), find?_flatten_eq_bucket hashFn m hwf k hpos]

theorem resize_items (m : HashMap K V) : (resize hashFn m).items = m.items := rfl

theorem resize_length (m : HashMap K V) :
    (resize hashFn m).buckets.length =
      if m.buckets.length = 0 then INITIAL_BUCKETS
      else m.buckets.length * BUCKET_SCALE_FACTOR := by
  show (rehash hashFn _ _).length = _
  rw [rehash_length]
  cases hl : m.buckets.length with
  | zero => rfl
  | succ n => rfl

theorem resize_length_pos (m : HashMap K V) : 0 < (resize hashFn m).buckets.length := by
  rw [resize_length]
  by_cases h : m.buckets.length = 0 <;>
    simp [h, INITIAL_BUCKETS, BUCKET_SCALE_FACTOR] <;> omega

theorem resize_length_ge (m : HashMap K V) :
    m.buckets.length ≤ (resize hashFn m).buckets.length := by
  rw [resize_length]
  by_cases h : m.buckets.length = 0 <;>
    simp [h, INITIAL_BUCKETS, BUCKET_SCALE_FACTOR] <;> omega

theorem resize_flatten_perm (m : HashMap K V) :
    ((resize hashFn m).buckets.flatten).Perm m.buckets.flatten := by
  show ((rehash hashFn _ _).flatten).Perm _
  apply rehash_flatten_perm
  cases hl : m.buckets.length with
  | zero => simp [INITIAL_BUCKETS]
  | succ n => simp [BUCKET_SCALE_FACTOR]

theorem rehash_placement (t : Nat) (ps : List (K × V)) (ht : 0 < t) :
    ∀ j, j < (rehash hashFn t ps).length →
      ∀ p ∈ (rehash hashFn t ps).getD j [],
        hashFn p.1 % (rehash hashFn t ps).length = j := by
  intro j hj p hp
  rw [rehash_length] at hj ⊢
  rw [rehash_getD hashFn t ps j ht hj] at hp
  simpa using (List.mem_filter.mp hp).2

theorem resize_WF (m : HashMap K V) (hwf : WF hashFn m) : WF hashFn (resize hashFn m) := by
  have hperm := resize_flatten_perm hashFn m
  refine ⟨?_, ?_, ?_⟩
  · rw [resize_items, hwf.items_eq hashFn, hperm.length_eq]
  · exact rehash_placement hashFn _ _
      (by cases m.buckets.length <;> simp [INITIAL_BUCKETS, BUCKET_SCALE_FACTOR])
  · exact ((hperm.map Prod.fst).nodup_iff).mpr (hwf.nodupKeys hashFn)

theorem resize_model (m : HashMap K V) (hwf : WF hashFn m) (k : K) :
    model (resize hashFn m) k = model m k := by
  unfold model
  rw [find?_key_perm _ _ (resize_flatten_perm hashFn m)
    ((resize_WF hashFn m hwf).nodupKeys hashFn) k]

theorem grown_items (m : HashMap K V) : (grown hashFn m).items = m.items := by
  unfold grown
  split
  · rfl
  · rfl

theorem grown_length_pos (m : HashMap K V) : 0 < (grown hashFn m).buckets.length := by
  unfold grown
  by_cases hp : resize_pred m.items m.buckets.length
  · rw [if_pos hp]
    exact resize_length_pos hashFn m
  · rw [if_neg hp]
    unfold resize_pred at hp
    rcases Nat.eq_zero_or_pos m.buckets.length with h0 | h1
    · exfalso
      apply hp
      rw [h0]
      simp [RESIZE_NUM, RESIZE_DEN]
    · exact h1

theorem grown_length_ge (m : HashMap K V) :
    m.buckets.length ≤ (grown hashFn m).buckets.length := by
  unfold grown
  split
  · exact resize_length_ge hashFn m
  · exact Nat.le_refl _

theorem grown_WF (m : HashMap K V) (hwf : WF hashFn m) : WF hashFn (grown hashFn m) := by
  unfold grown
  split
  · exact resize_WF hashFn m hwf
  · exact hwf

theorem grown_model (m : HashMap K V) (hwf : WF hashFn m) (k : K) :
    model (grown hashFn m) k = model m k := by
  unfold grown
  split
  · exact resize_model hashFn m hwf k
  · rfl

theorem grown_flatten_perm (m : HashMap K V) :
    ((grown hashFn m).buckets.flatten).Perm m.buckets.flatten := by
  unfold grown
  split
  · exact resize_flatten_perm hashFn m
  · exact List.Perm.refl _

theorem set_bucket_placement (m : HashMap K V) (i : Nat) (b' : List (K × V))
    (hwf : WF hashFn m) (hi : i < m.buckets.length)
    (hb' : ∀ p ∈ b', hashFn p.1 % m.buckets.length = i) :
    ∀ j, j < (m.buckets.set i b').length →
      ∀ p ∈ (m.buckets.set i b').getD j [],
        hashFn p.1 % (m.buckets.set i b').length = j := by
  intro j hj p hp
  rw [List.length_set] at hj ⊢
  by_cases hij : j = i
  · subst hij
    rw [List.getD_eq_getElem?_getD, List.getElem?_set_self (by omega),
      Option.getD_some] at hp
    exact hb' p hp
  · rw [List.getD_eq_getElem?_getD, List.getElem?_set_ne (Ne.symm hij)] at hp
    exact hwf.placement hashFn j hj p (by rw [List.getD_eq_getElem?_getD]; exact hp)

theorem bucket_getD_set_same (bs : List (List α)) (i : Nat) (b' : List α)
    (h : i < bs.length) : (bs.set i b').getD i [] = b' := by
  rw [List.getD_eq_getElem?_getD, List.getElem?_set_self h, Option.getD_some]

theorem bucket_getD_set_ne (bs : List (List α)) (i j : Nat) (b' : List α)
    (h : i ≠ j) : (bs.set i b').getD j [] = bs.getD j [] := by
  rw [List.getD_eq_getElem?_getD, List.getElem?_set_ne h, List.getD_eq_getElem?_getD]

theorem model_eq_bucket_find? (m : HashMap K V) (hwf : WF hashFn m)
    (hpos : 0 < m.buckets.length) (k : K) :
    model m k = ((m.buckets.getD (hashFn k % m.buckets.length) []).find?
      (fun p => decide (p.1 = k))).map Prod.snd := by
  unfold model
  rw [find?_flatten_eq_bucket hashFn m hwf k hpos]

theorem key_notin_of_bucket_find?_none (m : HashMap K V) (hwf : WF hashFn m)
    (hpos : 0 < m.buckets.length) (k : K)
    (hf : (m.buckets.getD (hashFn k % m.buckets.length) []).find?
        (fun p => decide (p.1 = k)) = none) :
    k ∉ m.buckets.flatten.map Prod.fst := by
  intro hk
  obtain ⟨q, hq, hqk⟩ := List.mem_map.mp hk
  have h1 : m.buckets.flatten.find? (fun p => decide (p.1 = k)) = none := by
    rw [find?_flatten_eq_bucket hashFn m hwf k hpos, hf]
  rw [List.find?_eq_none] at h1
  exact h1 q hq (by simpa using hqk)

theorem bucket_nodupKeys (m : HashMap K V) (hwf : WF hashFn m) (i : Nat)
    (hi : i < m.buckets.length) :
    ((m.buckets.getD i []).map Prod.fst).Nodup := by
  have h := hwf.nodupKeys hashFn
  rw [flatten_expose m.buckets i hi] at h
  simp only [List.map_append] at h
  exact (h.of_append_right).of_append_left

/-- Effect of the Occupied branch of `insert`: replacing the value of the
first matching pair of the target bucket. -/
theorem replace_bucket_spec (m : HashMap K V) (k : K) (v : V) (q : K × V)
    (hwf : WF hashFn m) (hpos : 0 < m.buckets.length) (i : Nat)
    (hi : i = hashFn k % m.buckets.length)
    (hf : (m.buckets.getD i []).find? (fun p => decide (p.1 = k)) = some q)
    (m' : HashMap K V)
    (hm' : m' = { m with
      buckets := m.buckets.set i (replaceValue k v (m.buckets.getD i [])) }) :
    WF hashFn m' ∧ model m' k = some v ∧
    (∀ k', k' ≠ k → model m' k' = model m k') ∧
    model m k = some q.2 ∧ m'.items = m.items ∧
    m'.buckets.length = m.buckets.length := by
  have hilt : i < m.buckets.length := by rw [hi]; exact Nat.mod_lt _ hpos
  have hlen : m'.buckets.length = m.buckets.length := by rw [hm']; simp
  have hitems : m'.items = m.items := by rw [hm']
  have hkeysm' : m'.buckets.flatten.map Prod.fst = m.buckets.flatten.map Prod.fst := by
    rw [hm']
    show ((m.buckets.set i _).flatten.map Prod.fst) = _
    rw [flatten_set _ i _ hilt, flatten_expose m.buckets i hilt]
    simp only [List.map_append, replaceValue_keys]
  have hflatlen : m'.buckets.flatten.length = m.buckets.flatten.length := by
    have h := congrArg List.length hkeysm'
    rwa [List.length_map, List.length_map] at h
  have hwf' : WF hashFn m' := by
    refine ⟨?_, ?_, ?_⟩
    · rw [hitems, hwf.items_eq hashFn, hflatlen]
    · rw [hm']
      refine set_bucket_placement hashFn m i _ hwf hilt ?_
      intro p hp
      have hpk : p.1 ∈ (replaceValue k v (m.buckets.getD i [])).map Prod.fst :=
        List.mem_map_of_mem _ hp
      rw [replaceValue_keys] at hpk
      obtain ⟨q', hq', hq'eq⟩ := List.mem_map.mp hpk
      rw [← hq'eq, hwf.placement hashFn i hilt q' hq', hi]
    · rw [hkeysm']
      exact hwf.nodupKeys hashFn
  have hbg : m'.buckets.getD i [] = replaceValue k v (m.buckets.getD i []) := by
    rw [hm']
    exact bucket_getD_set_same _ _ _ hilt
  have hmodelm : model m k = some q.2 := by
    rw [model_eq_bucket_find? hashFn m hwf hpos k, ← hi, hf]
    rfl
  refine ⟨hwf', ?_, ?_, hmodelm, hitems, hlen⟩
  · rw [model_eq_bucket_find? hashFn m' hwf' (by omega) k]
    have hidx : hashFn k % m'.buckets.length = i := by rw [hlen, hi]
    rw [hidx, hbg, find?_replaceValue, hf]
    rfl
  · intro k' hne
    rw [model_eq_bucket_find? hashFn m' hwf' (by omega) k',
      model_eq_bucket_find? hashFn m hwf hpos k']
    have hidx : hashFn k' % m'.buckets.length = hashFn k' % m.buckets.length := by
      rw [hlen]
    rw [hidx]
    by_cases hj : hashFn k' % m.buckets.length = i
    · rw [hj, hbg, find?_replaceValue_ne k k' v _ hne]
    · have hbg2 : m'.buckets.getD (hashFn k' % m.buckets.length) [] =
          m.buckets.getD (hashFn k' % m.buckets.length) [] := by
        rw [hm']
        exact bucket_getD_set_ne _ _ _ _ (fun hc => hj hc.symm)
      rw [hbg2]

/-- Effect of appending `(k, v)` to the target bucket (the Vacant branch of
both `insert` and the entry protocol). -/
theorem vacant_insert_spec (m : HashMap K V) (k : K) (v : V)
    (hwf : WF hashFn m) (hpos : 0 < m.buckets.length) (i : Nat)
    (hi : i = hashFn k % m.buckets.length)
    (hf : (m.buckets.getD i []).find? (fun p => decide (p.1 = k)) = none) :
    WF hashFn (vacant_insert m i k v) ∧
    model (vacant_insert m i k v) k = some v ∧
    (∀ k', k' ≠ k → model (vacant_insert m i k v) k' = model m k') ∧
    model m k = none ∧
    (vacant_insert m i k v).items = m.items + 1 ∧
    (vacant_insert m i k v).buckets.length = m.buckets.length := by
  have hilt : i < m.buckets.length := by rw [hi]; exact Nat.mod_lt _ hpos
  have hlen : (vacant_insert m i k v).buckets.length = m.buckets.length := by
    show (m.buckets.set i _).length = _
    simp
  have hitems : (vacant_insert m i k v).items = m.items + 1 := rfl
  have hmodelm : model m k = none := by
    rw [model_eq_bucket_find? hashFn m hwf hpos k, ← hi, hf]
    rfl
  have hknotin : k ∉ m.buckets.flatten.map Prod.fst :=
    key_notin_of_bucket_find?_none hashFn m hwf hpos k (hi ▸ hf)
  have hperm : ((vacant_insert m i k v).buckets.flatten).Perm
      ((k, v) :: m.buckets.flatten) := by
    show ((m.buckets.set i (m.buckets.getD i [] ++ [(k, v)])).flatten).Perm _
    rw [flatten_set _ i _ hilt, flatten_expose m.buckets i hilt]
    have e1 : (m.buckets.take i).flatten ++
        ((m.buckets.getD i [] ++ [(k, v)]) ++ (m.buckets.drop (i + 1)).flatten) =
        ((m.buckets.take i).flatten ++ m.buckets.getD i []) ++
          ((k, v) :: (m.buckets.drop (i + 1)).flatten) := by
      simp [List.append_assoc]
    have e2 : (k, v) :: ((m.buckets.take i).flatten ++
        (m.buckets.getD i [] ++ (m.buckets.drop (i + 1)).flatten)) =
        (k, v) :: (((m.buckets.take i).flatten ++ m.buckets.getD i []) ++
          (m.buckets.drop (i + 1)).flatten) := by
      simp [List.append_assoc]
    rw [e1, e2]
    exact List.perm_middle
  have hwf' : WF hashFn (vacant_insert m i k v) := by
    refine ⟨?_, ?_, ?_⟩
    · rw [hitems, hwf.items_eq hashFn, hperm.length_eq]
      rfl
    · refine set_bucket_placement hashFn m i _ hwf hilt ?_
      intro p hp
      rcases List.mem_append.mp hp with hpb | hpv
      · exact hwf.placement hashFn i hilt p hpb
      · have : p = (k, v) := by simpa using hpv
        rw [this, hi]
    · refine ((hperm.map Prod.fst).nodup_iff).mpr ?_
      rw [List.map_cons]
      exact List.nodup_cons.mpr ⟨hknotin, hwf.nodupKeys hashFn⟩
  have hbg : (vacant_insert m i k v).buckets.getD i [] =
      m.buckets.getD i [] ++ [(k, v)] := by
    show (m.buckets.set i _).getD i [] = _
    exact bucket_getD_set_same _ _ _ hilt
  refine ⟨hwf', ?_, ?_, hmodelm, hitems, hlen⟩
  · rw [model_eq_bucket_find? hashFn _ hwf' (by omega) k]
    have hidx : hashFn k % (vacant_insert m i k v).buckets.length = i := by
      rw [hlen, hi]
    rw [hidx, hbg, List.find?_append, hf]
    simp
  · intro k' hne
    rw [model_eq_bucket_find? hashFn _ hwf' (by omega) k',
      model_eq_bucket_find? hashFn m hwf hpos k']
    have hidx : hashFn k' % (vacant_insert m i k v).buckets.length =
        hashFn k' % m.buckets.length := by
      rw [hlen]
    rw [hidx]
    by_cases hj : hashFn k' % m.buckets.length = i
    · rw [hj, hbg, List.find?_append]
      have hnone : [(k, v)].find? (fun p => decide (p.1 = k')) = none := by
        simp [Ne.symm hne]
      rw [hnone, Option.or_none]
    · have hbg2 : (vacant_insert m i k v).buckets.getD
          (hashFn k' % m.buckets.length) [] =
          m.buckets.getD (hashFn k' % m.buckets.length) [] := by
        show (m.buckets.set i _).getD _ [] = _
        exact bucket_getD_set_ne _ _ _ _ (fun hc => hj hc.symm)
      rw [hbg2]

/-- Effect of the found branch of `remove`: swap-removing the matching pair
from the target bucket and decrementing `items`. -/
theorem remove_found_spec (m : HashMap K V) (k : K)
    (hwf : WF hashFn m) (hpos : 0 < m.buckets.length) (i pos : Nat)
    (hi : i = hashFn k % m.buckets.length)
    (hfi : (m.buckets.getD i []).findIdx? (fun p => decide (p.1 = k)) = some pos)
    (m' : HashMap K V)
    (hm' : m' = HashMap.mk (m.buckets.set i (swap_remove (m.buckets.getD i []) pos))
      (m.items - 1)) :
    ∃ q : K × V, (m.buckets.getD i [])[pos]? = some q ∧ q.1 = k ∧
      model m k = some q.2 ∧
      WF hashFn m' ∧ model m' k = none ∧
      (∀ k', k' ≠ k → model m' k' = model m k') ∧
      m'.items = m.items - 1 ∧ 1 ≤ m.items ∧
      m'.buckets.length = m.buckets.length := by
  have hilt : i < m.buckets.length := by rw [hi]; exact Nat.mod_lt _ hpos
  have hplt : pos < (m.buckets.getD i []).length := findIdx?_lt_length hfi
  refine ⟨(m.buckets.getD i []).get ⟨pos, hplt⟩, List.getElem?_eq_getElem hplt, ?_⟩
  have hq? : (m.buckets.getD i [])[pos]? = some ((m.buckets.getD i []).get ⟨pos, hplt⟩) :=
    List.getElem?_eq_getElem hplt
  set q := (m.buckets.getD i []).get ⟨pos, hplt⟩ with hqdef
  have hfind : (m.buckets.getD i []).find? (fun p => decide (p.1 = k)) = some q := by
    rw [find?_eq_findIdx?_bind, hfi]
    exact hq?
  have hqk : q.1 = k := by simpa using List.find?_some hfind
  have hmodelm : model m k = some q.2 := by
    rw [model_eq_bucket_find? hashFn m hwf hpos k, ← hi, hfind]
    rfl
  have hlen : m'.buckets.length = m.buckets.length := by rw [hm']; simp
  have hitems : m'.items = m.items - 1 := by rw [hm']
  have hbperm : (m.buckets.getD i []).Perm (q :: swap_remove (m.buckets.getD i []) pos) :=
    swap_remove_perm _ pos q hq?
  have hperm : m.buckets.flatten.Perm (q :: m'.buckets.flatten) := by
    rw [hm']
    show m.buckets.flatten.Perm (q :: (m.buckets.set i _).flatten)
    rw [flatten_set _ i _ hilt, flatten_expose m.buckets i hilt]
    refine ((List.Perm.append_left _ (List.Perm.append_right _ hbperm))).trans ?_
    have e1 : (m.buckets.take i).flatten ++
        ((q :: swap_remove (m.buckets.getD i []) pos) ++ (m.buckets.drop (i + 1)).flatten) =
        (m.buckets.take i).flatten ++
          (q :: (swap_remove (m.buckets.getD i []) pos ++ (m.buckets.drop (i + 1)).flatten)) := by
      simp
    rw [e1]
    have e2 : q :: ((m.buckets.take i).flatten ++
        (swap_remove (m.buckets.getD i []) pos ++ (m.buckets.drop (i + 1)).flatten)) =
        q :: ((m.buckets.take i).flatten ++
          (swap_remove (m.buckets.getD i []) pos ++ (m.buckets.drop (i + 1)).flatten)) := rfl
    rw [e2]
    exact List.perm_middle
  have hflatlen : m.buckets.flatten.length = m'.buckets.flatten.length + 1 := by
    rw [hperm.length_eq]
    rfl
  have hitems_ge : 1 ≤ m.items := by
    rw [hwf.items_eq hashFn]
    omega
  have hKbnodup : ((m.buckets.getD i []).map Prod.fst).Nodup :=
    bucket_nodupKeys hashFn m hwf i hilt
  have hbnodup : (m.buckets.getD i []).Nodup := hKbnodup.of_map _
  have hconsnodup : (q :: swap_remove (m.buckets.getD i []) pos).Nodup :=
    (hbperm.nodup_iff).mp hbnodup
  have hqnotin : q ∉ swap_remove (m.buckets.getD i []) pos :=
    (List.nodup_cons.mp hconsnodup).1
  have hwf' : WF hashFn m' := by
    refine ⟨?_, ?_, ?_⟩
    · rw [hitems, hwf.items_eq hashFn]
      omega
    · rw [hm']
      refine set_bucket_placement hashFn m i _ hwf hilt ?_
      intro p hp
      have hpb : p ∈ m.buckets.getD i [] :=
        (hbperm.mem_iff).mpr (List.mem_cons_of_mem _ hp)
      exact hwf.placement hashFn i hilt p hpb
    · have hk := hwf.nodupKeys hashFn
      rw [(hperm.map Prod.fst).nodup_iff] at hk
      rw [List.map_cons] at hk
      exact (List.nodup_cons.mp hk).2
  have hbg : m'.buckets.getD i [] = swap_remove (m.buckets.getD i []) pos := by
    rw [hm']
    exact bucket_getD_set_same _ _ _ hilt
  refine ⟨hqk, hmodelm, hwf', ?_, ?_, hitems, hitems_ge, hlen⟩
  · rw [model_eq_bucket_find? hashFn m' hwf' (by omega) k]
    have hidx : hashFn k % m'.buckets.length = i := by rw [hlen, hi]
    rw [hidx, hbg]
    have hnone : (swap_remove (m.buckets.getD i []) pos).find?
        (fun p => decide (p.1 = k)) = none := by
      rw [List.find?_eq_none]
      intro x hx hxk
      have hxk' : x.1 = k := by simpa using hxk
      have hxb : x ∈ m.buckets.getD i [] :=
        (hbperm.mem_iff).mpr (List.mem_cons_of_mem _ hx)
      have hqb : q ∈ m.buckets.getD i [] := (hbperm.mem_iff).mpr (List.mem_cons_self _ _)
      have hxq : x = q :=
        List.inj_on_of_nodup_map hKbnodup hxb hqb (by rw [hxk', hqk])
      rw [hxq] at hx
      exact hqnotin hx
    rw [hnone]
    rfl
  · intro k' hne
    rw [model_eq_bucket_find? hashFn m' hwf' (by omega) k',
      model_eq_bucket_find? hashFn m hwf hpos k']
    have hidx : hashFn k' % m'.buckets.length = hashFn k' % m.buckets.length := by
      rw [hlen]
    rw [hidx]
    by_cases hj : hashFn k' % m.buckets.length = i
    · rw [hj, hbg]
      have hstep : (m.buckets.getD i []).find? (fun p => decide (p.1 = k')) =
          ((q :: swap_remove (m.buckets.getD i []) pos).find?
            (fun p => decide (p.1 = k'))) :=
        find?_key_perm _ _ hbperm hKbnodup k'
      rw [hstep, List.find?_cons_of_neg _ (by simp [hqk, Ne.symm hne])]
    · have hbg2 : m'.buckets.getD (hashFn k' % m.buckets.length) [] =
          m.buckets.getD (hashFn k' % m.buckets.length) [] := by
        rw [hm']
        exact bucket_getD_set_ne _ _ _ _ (fun hc => hj hc.symm)
      rw [hbg2]

theorem bucketIdx_grown (m : HashMap K V) (k : K) :
    bucketIdx hashFn (grown hashFn m) k =
      some (hashFn k % (grown hashFn m).buckets.length) := by
  unfold bucketIdx
  rw [if_neg (by have := grown_length_pos hashFn m; omega)]

theorem insert_eq_branch (m : HashMap K V) (k : K) (v : V) :
    insert hashFn m k v =
      match ((grown hashFn m).buckets.getD
          (hashFn k % (grown hashFn m).buckets.length) []).find?
          (fun p => decide (p.1 = k)) with
      | some p => some ({ grown hashFn m with
          buckets := (grown hashFn m).buckets.set
            (hashFn k % (grown hashFn m).buckets.length)
            (replaceValue k v ((grown hashFn m).buckets.getD
              (hashFn k % (grown hashFn m).buckets.length) [])) }, some p.2)
      | none => some (vacant_insert (grown hashFn m)
          (hashFn k % (grown hashFn m).buckets.length) k v, none) := by
  simp only [insert, vacant_insert, bucketIdx_grown]

theorem entry_eq (m : HashMap K V) (k : K) :
    entry hashFn m k = some (grown hashFn m,
      hashFn k % (grown hashFn m).buckets.length,
      (((grown hashFn m).buckets.getD
        (hashFn k % (grown hashFn m).buckets.length) []).find?
        (fun p => decide (p.1 = k))).map Prod.snd) := by
  simp only [entry, bucketIdx_grown]

theorem insert_spec (m : HashMap K V) (k : K) (v : V) (hwf : WF hashFn m) :
    ∃ m' r, insert hashFn m k v = some (m', r) ∧
      WF hashFn m' ∧ r = model m k ∧ model m' k = some v ∧
      (∀ k', k' ≠ k → model m' k' = model m k') ∧
      m'.items = (if (model m k).isSome then m.items else m.items + 1) ∧
      m'.buckets.length = (grown hashFn m).buckets.length ∧
      m.buckets.length ≤ m'.buckets.length := by
  have hwf1 := grown_WF hashFn m hwf
  have hpos1 := grown_length_pos hashFn m
  have hmodel1 := grown_model hashFn m hwf
  have hitems1 := grown_items hashFn m
  have hlen1 := grown_length_ge hashFn m
  cases hf : ((grown hashFn m).buckets.getD
      (hashFn k % (grown hashFn m).buckets.length) []).find?
      (fun p => decide (p.1 = k)) with
  | some q =>
    obtain ⟨hwf', hm'k, hm'ne, hmk, hit, hl⟩ :=
      replace_bucket_spec hashFn (grown hashFn m) k v q hwf1 hpos1 _ rfl hf _ rfl
    have hmk0 : model m k = some q.2 := by rw [← hmodel1 k]; exact hmk
    refine ⟨_, some q.2, by rw [insert_eq_branch hashFn m k v, hf], hwf', ?_, hm'k,
      ?_, ?_, ?_, ?_⟩
    · rw [hmk0]
    · intro k' hne
      rw [hm'ne k' hne, hmodel1 k']
    · rw [hmk0, hit, hitems1]
      rfl
    · rw [hl]
    · rw [hl]
      exact hlen1
  | none =>
    obtain ⟨hwf', hm'k, hm'ne, hmk, hit, hl⟩ :=
      vacant_insert_spec hashFn (grown hashFn m) k v hwf1 hpos1 _ rfl hf
    have hmk0 : model m k = none := by rw [← hmodel1 k]; exact hmk
    refine ⟨_, none, by rw [insert_eq_branch hashFn m k v, hf], hwf', ?_, hm'k,
      ?_, ?_, ?_, ?_⟩
    · rw [hmk0]
    · intro k' hne
      rw [hm'ne k' hne, hmodel1 k']
    · rw [hmk0, hit, hitems1]
      rfl
    · rw [hl]
    · rw [hl]
      exact hlen1

theorem or_insert_spec (m : HashMap K V) (k : K) (v : V) (hwf : WF hashFn m) :
    ∃ m' rv, or_insert hashFn m k v = some (m', rv) ∧ WF hashFn m' ∧
      (∀ v0, model m k = some v0 →
        rv = v0 ∧ m'.items = m.items ∧ (∀ k', model m' k' = model m k')) ∧
      (model m k = none →
        rv = v ∧ m'.items = m.items + 1 ∧ model m' k = some v ∧
          (∀ k', k' ≠ k → model m' k' = model m k')) ∧
      m'.buckets.length = (grown hashFn m).buckets.length ∧
      m.buckets.length ≤ m'.buckets.length ∧
      m'.items ≤ m.items + 1 := by
  have hwf1 := grown_WF hashFn m hwf
  have hpos1 := grown_length_pos hashFn m
  have hmodel1 := grown_model hashFn m hwf
  have hitems1 := grown_items hashFn m
  have hlen1 := grown_length_ge hashFn m
  cases hf : ((grown hashFn m).buckets.getD
      (hashFn k % (grown hashFn m).buckets.length) []).find?
      (fun p => decide (p.1 = k)) with
  | some q =>
    have heq : or_insert hashFn m k v = some (grown hashFn m, q.2) := by
      unfold or_insert
      rw [entry_eq, hf]
      rfl
    have hmk0 : model m k = some q.2 := by
      rw [← hmodel1 k, model_eq_bucket_find? hashFn _ hwf1 hpos1 k, hf]
      rfl
    refine ⟨grown hashFn m, q.2, heq, hwf1, ?_, ?_, rfl, hlen1, by rw [hitems1]; omega⟩
    · intro v0 hv0
      rw [hmk0] at hv0
      exact ⟨Option.some_inj.mp hv0, hitems1, hmodel1⟩
    · intro hnone
      rw [hmk0] at hnone
      exact absurd hnone (by simp)
  | none =>
    obtain ⟨hwf', hm'k, hm'ne, hmk, hit, hl⟩ :=
      vacant_insert_spec hashFn (grown hashFn m) k v hwf1 hpos1 _ rfl hf
    have hmk0 : model m k = none := by rw [← hmodel1 k]; exact hmk
    have heq : or_insert hashFn m k v =
        some (vacant_insert (grown hashFn m)
          (hashFn k % (grown hashFn m).buckets.length) k v, v) := by
      unfold or_insert
      rw [entry_eq, hf]
      rfl
    refine ⟨_, v, heq, hwf', ?_, ?_, by rw [hl], by rw [hl]; exact hlen1, ?_⟩
    · intro v0 hv0
      rw [hmk0] at hv0
      exact absurd hv0 (by simp)
    · intro _
      refine ⟨rfl, by rw [hit, hitems1], hm'k, ?_⟩
      intro k' hne
      rw [hm'ne k' hne, hmodel1 k']
    · rw [hit, hitems1]

theorem or_insert_with_spec (m : HashMap K V) (k : K) (producer : S → S × V)
    (s : S) (hwf : WF hashFn m) :
    (∀ v0, model m k = some v0 →
      or_insert_with hashFn m k producer s = some (grown hashFn m, v0, s)) ∧
    (model m k = none →
      or_insert_with hashFn m k producer s =
        some (vacant_insert (grown hashFn m)
          (hashFn k % (grown hashFn m).buckets.length) k (producer s).2,
          (producer s).2, (producer s).1)) := by
  have hwf1 := grown_WF hashFn m hwf
  have hpos1 := grown_length_pos hashFn m
  have hmodel1 := grown_model hashFn m hwf
  cases hf : ((grown hashFn m).buckets.getD
      (hashFn k % (grown hashFn m).buckets.length) []).find?
      (fun p => decide (p.1 = k)) with
  | some q =>
    have hmk0 : model m k = some q.2 := by
      rw [← hmodel1 k, model_eq_bucket_find? hashFn _ hwf1 hpos1 k, hf]
      rfl
    constructor
    · intro v0 hv0
      rw [hmk0] at hv0
      rw [← Option.some_inj.mp hv0]
      unfold or_insert_with
      rw [entry_eq, hf]
      rfl
    · intro hnone
      rw [hmk0] at hnone
      exact absurd hnone (by simp)
  | none =>
    have hmk0 : model m k = none := by
      rw [← hmodel1 k, model_eq_bucket_find? hashFn _ hwf1 hpos1 k, hf]
      rfl
    constructor
    · intro v0 hv0
      rw [hmk0] at hv0
      exact absurd hv0 (by simp)
    · intro _
      unfold or_insert_with
      rw [entry_eq, hf]
      rfl

theorem remove_spec (m : HashMap K V) (k : K) (hwf : WF hashFn m)
    (hpos : 0 < m.buckets.length) :
    ∃ m', remove hashFn m k = some (m', model m k) ∧
      WF hashFn m' ∧ model m' k = none ∧
      (∀ k', k' ≠ k → model m' k' = model m k') ∧
      ((model m k).isSome → m'.items = m.items - 1 ∧ 1 ≤ m.items) ∧
      (model m k = none → m' = m) ∧
      m'.buckets.length = m.buckets.length := by
  have hbx : bucketIdx hashFn m k = some (hashFn k % m.buckets.length) := by
    unfold bucketIdx
    rw [if_neg (by omega)]
  cases hfi : (m.buckets.getD (hashFn k % m.buckets.length) []).findIdx?
      (fun p => decide (p.1 = k)) with
  | none =>
    have hmk0 : model m k = none := by
      rw [model_eq_bucket_find? hashFn m hwf hpos k, find?_eq_findIdx?_bind, hfi]
      rfl
    have heq : remove hashFn m k = some (m, none) := by
      unfold remove
      rw [hbx]
      simp only [hfi]
    refine ⟨m, by rw [hmk0]; exact heq, hwf, hmk0, fun k' _ => rfl, ?_, fun _ => rfl, rfl⟩
    intro hsome
    rw [hmk0] at hsome
    simp at hsome
  | some pos =>
    obtain ⟨q, hq?, hqk, hmodelm, hwf', hm'k, hm'ne, hits, hge, hl⟩ :=
      remove_found_spec hashFn m k hwf hpos _ pos rfl hfi _ rfl
    have heq : remove hashFn m k =
        some (HashMap.mk (m.buckets.set (hashFn k % m.buckets.length)
          (swap_remove (m.buckets.getD (hashFn k % m.buckets.length) []) pos))
          (m.items - 1),
          ((m.buckets.getD (hashFn k % m.buckets.length) [])[pos]?).map Prod.snd) := by
      unfold remove
      rw [hbx]
      simp only [hfi]
    rw [hq?] at heq
    refine ⟨_, ?_, hwf', hm'k, hm'ne, fun _ => ⟨hits, hge⟩, ?_, hl⟩
    · rw [hmodelm]
      exact heq
    · intro hnone
      rw [hmodelm] at hnone
      exact absurd hnone (by simp)

theorem WF_new : WF hashFn (HashMap.new : HashMap K V) := by
  refine ⟨rfl, ?_, ?_⟩
  · intro i hi
    simp [HashMap.new] at hi
  · simp [HashMap.new]

theorem model_new (k : K) : model (HashMap.new : HashMap K V) k = none := rfl

theorem grown_load_bound (m : HashMap K V) (hwf : WF hashFn m) (hli : LoadInv m) :
    m.items + 1 ≤ RESIZE_NUM * (grown hashFn m).buckets.length / RESIZE_DEN + 1 := by
  unfold grown
  by_cases hp : resize_pred m.items m.buckets.length
  · rw [if_pos hp, resize_length]
    rcases Nat.eq_zero_or_pos m.buckets.length with h0 | h1
    · have hnil : m.buckets = [] := List.length_eq_zero.mp h0
      have hz : m.items = 0 := by
        rw [hwf.items_eq hashFn, hnil]
        rfl
      rw [if_pos h0, hz]
      simp [INITIAL_BUCKETS, RESIZE_NUM, RESIZE_DEN]
    · rw [if_neg (by omega)]
      unfold LoadInv RESIZE_NUM RESIZE_DEN at hli
      unfold RESIZE_NUM RESIZE_DEN BUCKET_SCALE_FACTOR
      omega
  · rw [if_neg hp]
    unfold resize_pred at hp
    unfold RESIZE_NUM RESIZE_DEN at hp ⊢
    simp at hp
    omega

theorem LoadInv_new : LoadInv (HashMap.new : HashMap K V) := by
  simp [LoadInv, HashMap.new]

theorem LoadInv_mono (m m' : HashMap K V) (hli : LoadInv m)
    (hitems : m'.items ≤ m.items) (hlen : m.buckets.length ≤ m'.buckets.length) :
    LoadInv m' := by
  unfold LoadInv RESIZE_NUM RESIZE_DEN at *
  have hd : 3 * m.buckets.length / 4 ≤ 3 * m'.buckets.length / 4 :=
    Nat.div_le_div_right (Nat.mul_le_mul_left 3 hlen)
  omega

/-- Every reachable table is well formed and satisfies the load-factor
bound. -/
theorem reachable_inv (m : HashMap K V) (h : Reachable hashFn m) :
    WF hashFn m ∧ LoadInv m := by
  induction h with
  | new =>
    exact ⟨WF_new hashFn, LoadInv_new⟩
  | insert m0 m' k v r hr heq ih =>
    obtain ⟨hwf0, hli0⟩ := ih
    obtain ⟨m'', r', heq', hwf', _, _, _, hit, hl, _⟩ := insert_spec hashFn m0 k v hwf0
    rw [heq] at heq'
    injection heq' with hpair
    injection hpair with h1 h2
    subst h1
    subst h2
    refine ⟨hwf', ?_⟩
    have hb := grown_load_bound hashFn m0 hwf0 hli0
    have hitle : m'.items ≤ m0.items + 1 := by
      rw [hit]
      split <;> omega
    unfold LoadInv
    rw [hl]
    unfold RESIZE_NUM RESIZE_DEN at hb ⊢
    omega
  | remove m0 m' k r hr heq ih =>
    obtain ⟨hwf0, hli0⟩ := ih
    have hpos : 0 < m0.buckets.length := by
      by_contra h0
      have hb0 : bucketIdx hashFn m0 k = none := by
        unfold bucketIdx
        rw [if_pos (by omega)]
      unfold remove at heq
      rw [hb0] at heq
      exact Option.noConfusion heq
    obtain ⟨m'', heq', hwf', _, _, hitems, hid, hlen⟩ := remove_spec hashFn m0 k hwf0 hpos
    rw [heq] at heq'
    injection heq' with hpair
    injection hpair with h1 h2
    subst h1
    refine ⟨hwf', ?_⟩
    rcases hmk : (model m0 k) with _ | v0
    · rw [hid hmk]
      exact hli0
    · obtain ⟨hit, hge⟩ := hitems (by rw [hmk]; rfl)
      exact LoadInv_mono m0 _ hli0 (by omega) (le_of_eq hlen.symm)
  | or_insert m0 m' k v rv hr heq ih =>
    obtain ⟨hwf0, hli0⟩ := ih
    obtain ⟨m'', rv', heq', hwf', _, _, hl, _, hle⟩ := or_insert_spec hashFn m0 k v hwf0
    rw [heq] at heq'
    injection heq' with hpair
    injection hpair with h1 h2
    subst h1
    refine ⟨hwf', ?_⟩
    have hb := grown_load_bound hashFn m0 hwf0 hli0
    unfold LoadInv
    rw [hl]
    unfold RESIZE_NUM RESIZE_DEN at hb ⊢
    omega
  | or_insert_with m0 m' k producer s s' rv hr heq ih =>
    obtain ⟨hwf0, hli0⟩ := ih
    obtain ⟨hocc, hvac⟩ := or_insert_with_spec hashFn m0 k producer s hwf0
    have hb := grown_load_bound hashFn m0 hwf0 hli0
    rcases hmk : (model m0 k) with _ | v0
    · have heq' := hvac hmk
      rw [heq] at heq'
      injection heq' with hpair
      injection hpair with h1 h2
      subst h1
      obtain ⟨hwf', _, _, _, hit, hl⟩ := vacant_insert_spec hashFn (grown hashFn m0) k
        (producer s).2 (grown_WF hashFn m0 hwf0) (grown_length_pos hashFn m0) _ rfl
        (by
          have hmg : model (grown hashFn m0) k = none := by
            rw [grown_model hashFn m0 hwf0 k]
            exact hmk
          rw [model_eq_bucket_find? hashFn _ (grown_WF hashFn m0 hwf0)
            (grown_length_pos hashFn m0) k] at hmg
          exact Option.map_eq_none.mp hmg)
      refine ⟨hwf', ?_⟩
      unfold LoadInv
      rw [hl, hit, grown_items]
      unfold RESIZE_NUM RESIZE_DEN at hb ⊢
      omega
    · have heq' := hocc v0 hmk
      rw [heq] at heq'
      injection heq' with hpair
      injection hpair with h1 h2
      subst h1
      refine ⟨grown_WF hashFn m0 hwf0, ?_⟩
      unfold LoadInv
      rw [grown_items]
      unfold RESIZE_NUM RESIZE_DEN at hb ⊢
      omega
  | resize m0 hr ih =>
    obtain ⟨hwf0, hli0⟩ := ih
    refine ⟨resize_WF hashFn m0 hwf0, ?_⟩
    exact LoadInv_mono m0 _ hli0 (by rw [resize_items]) (resize_length_ge hashFn m0)

theorem iterNext_past (m : HashMap K V) (it : HMIter)
    (h : m.buckets.length ≤ it.bucket) : iterNext m it = none := by
  unfold iterNext
  rw [dif_neg (by omega)]

theorem iterNext_yield (m : HashMap K V) (b i : Nat) (p : K × V)
    (hb : b < m.buckets.length) (hi : (m.buckets.getD b [])[i]? = some p) :
    iterNext m ⟨b, i⟩ = some (⟨b, i + 1⟩, p) := by
  unfold iterNext
  dsimp only
  rw [dif_pos hb, hi]

theorem iterNext_skip (m : HashMap K V) (b i : Nat)
    (hb : b < m.buckets.length) (hi : (m.buckets.getD b [])[i]? = none) :
    iterNext m ⟨b, i⟩ = iterNext m ⟨b + 1, 0⟩ := by
  conv_lhs => unfold iterNext
  dsimp only
  rw [dif_pos hb, hi]

theorem flatten_drop_succ (bs : List (List α)) (b : Nat) :
    (bs.drop b).flatten = bs.getD b [] ++ (bs.drop (b + 1)).flatten := by
  rcases Nat.lt_or_ge b bs.length with h | h
  · rw [List.drop_eq_getElem_cons h, List.flatten_cons, List.getD_eq_getElem?_getD,
      List.getElem?_eq_getElem h, Option.getD_some]
  · rw [List.drop_eq_nil_of_le h, List.drop_eq_nil_of_le (by omega),
      List.getD_eq_getElem?_getD, List.getElem?_eq_none h]
    rfl

theorem emits_congr (m : HashMap K V) (it1 it2 : HMIter)
    (hsame : iterNext m it1 = iterNext m it2) (l : List (K × V))
    (h : ∃ itF, Emits m it2 l itF) : ∃ itF, Emits m it1 l itF := by
  obtain ⟨itF, h⟩ := h
  cases h with
  | done _ hn => exact ⟨it1, Emits.done it1 (hsame.trans hn)⟩
  | step _ it' itF p l hs hrec =>
    exact ⟨itF, Emits.step it1 it' itF p l (hsame.trans hs) hrec⟩

theorem emits_from (m : HashMap K V) :
    ∀ n b, m.buckets.length - b ≤ n →
      ∀ j i, (m.buckets.getD b []).length - i ≤ j →
        ∃ itF, Emits m ⟨b, i⟩
          ((m.buckets.getD b []).drop i ++ (m.buckets.drop (b + 1)).flatten) itF := by
  intro n
  induction n with
  | zero =>
    intro b hb j i hj
    have hble : m.buckets.length ≤ b := by omega
    have h1 : m.buckets.getD b [] = [] := by
      rw [List.getD_eq_getElem?_getD, List.getElem?_eq_none hble]
      rfl
    have h2 : m.buckets.drop (b + 1) = [] := List.drop_eq_nil_of_le (by omega)
    refine ⟨⟨b, i⟩, ?_⟩
    rw [h1, h2]
    have he : (([] : List (K × V)).drop i ++ ([] : List (List (K × V))).flatten) =
        ([] : List (K × V)) := by
      simp
    rw [he]
    exact Emits.done _ (iterNext_past m _ hble)
  | succ n ihn =>
    intro b hb
    by_cases hble : m.buckets.length ≤ b
    · intro j i hj
      have h1 : m.buckets.getD b [] = [] := by
        rw [List.getD_eq_getElem?_getD, List.getElem?_eq_none hble]
        rfl
      have h2 : m.buckets.drop (b + 1) = [] := List.drop_eq_nil_of_le (by omega)
      refine ⟨⟨b, i⟩, ?_⟩
      rw [h1, h2]
      have he : (([] : List (K × V)).drop i ++ ([] : List (List (K × V))).flatten) =
          ([] : List (K × V)) := by
        simp
      rw [he]
      exact Emits.done _ (iterNext_past m _ hble)
    · have hskip : ∀ i, (m.buckets.getD b []).length ≤ i →
          ∃ itF, Emits m ⟨b, i⟩
            ((m.buckets.getD b []).drop i ++ (m.buckets.drop (b + 1)).flatten) itF := by
        intro i hi
        have hdrop : (m.buckets.getD b []).drop i = [] := List.drop_eq_nil_of_le hi
        rw [hdrop, List.nil_append]
        have hnext : iterNext m ⟨b, i⟩ = iterNext m ⟨b + 1, 0⟩ :=
          iterNext_skip m b i (by omega) (List.getElem?_eq_none hi)
        refine emits_congr m ⟨b, i⟩ ⟨b + 1, 0⟩ hnext _ ?_
        have hrec := ihn (b + 1) (by omega) ((m.buckets.getD (b + 1) []).length) 0
          (by omega)
        rw [flatten_drop_succ]
        simpa using hrec
      intro j
      induction j with
      | zero =>
        intro i hi
        exact hskip i (by omega)
      | succ j ihj =>
        intro i hi
        by_cases hlt : i < (m.buckets.getD b []).length
        · have hp : (m.buckets.getD b [])[i]? =
              some ((m.buckets.getD b []).get ⟨i, hlt⟩) :=
            List.getElem?_eq_getElem hlt
          have hnext := iterNext_yield m b i _ (by omega) hp
          obtain ⟨itF, hEm⟩ := ihj (i + 1) (by omega)
          refine ⟨itF, ?_⟩
          rw [List.drop_eq_getElem_cons hlt, List.cons_append]
          exact Emits.step _ ⟨b, i + 1⟩ itF _ _ hnext hEm
        · exact hskip i (by omega)

/-- The iterator started at `(0, 0)` emits exactly the flattened bucket
contents, in bucket order then chain order. -/
theorem emits_exists (m : HashMap K V) :
    ∃ itF, Emits m into_iter m.buckets.flatten itF := by
  obtain ⟨itF, hEm⟩ := emits_from m m.buckets.length 0 (by omega)
    ((m.buckets.getD 0 []).length) 0 (by omega)
  refine ⟨itF, ?_⟩
  have hfl : m.buckets.flatten =
      (m.buckets.getD 0 []).drop 0 ++ (m.buckets.drop 1).flatten := by
    have h := flatten_drop_succ m.buckets 0
    rw [List.drop_zero] at h
    simpa using h
  rw [hfl]
  exact hEm

theorem emits_unique (m : HashMap K V) (it : HMIter) (l1 l2 : List (K × V))
    (it1 it2 : HMIter) (h1 : Emits m it l1 it1) (h2 : Emits m it l2 it2) :
    l1 = l2 := by
  induction h1 generalizing l2 it2 with
  | done it hn =>
    cases h2 with
    | done _ _ => rfl
    | step _ it' _ p l hs _ =>
      rw [hn] at hs
      exact Option.noConfusion hs
  | step it it' itF p l hs hrec ih =>
    cases h2 with
    | done _ hn =>
      rw [hn] at hs
      exact Option.noConfusion hs
    | step _ it2' _ p2 l2' hs2 hrec2 =>
      rw [hs] at hs2
      injection hs2 with hpair
      injection hpair with hit hp
      subst hit
      subst hp
      rw [ih _ _ hrec2]

theorem emits_final_none (m : HashMap K V) (it : HMIter) (l : List (K × V))
    (itF : HMIter) (h : Emits m it l itF) : iterNext m itF = none := by
  induction h with
  | done _ hn => exact hn
  | step _ _ _ _ _ _ _ ih => exact ih

instance (m : HashMap K V) [DecidableEq V] : Decidable (WF hashFn m) := by
  unfold WF
  infer_instance

/-! ## Claim theorems -/

/-- C1: for every reachable table state (any sequence of insert, remove,
entry-terminal operations and resize steps from the fresh table) the stored
counter `items`, as returned by `len()`, equals the total number of pairs
across all buckets; the `Reachable` closure expresses that each of these
operations preserves the equality. -/
theorem C1_len_counts_pairs (m : HashMap K V) (h : Reachable hashFn m) :
    len m = m.buckets.flatten.length :=
  (reachable_inv hashFn m h).1.1

theorem C1_len_counts_pairs_witness :
    len (HashMap.new : HashMap Nat Nat) =
      (HashMap.new : HashMap Nat Nat).buckets.flatten.length :=
  C1_len_counts_pairs (fun n => n) HashMap.new Reachable.new

/-- C2: on a well-formed table (every reachable table is well formed, see
`reachable_inv`), `insert k v` replaces in place and returns the old value
when `k` is present leaving `len` unchanged, appends and increments `len`
by one returning nothing when `k` is absent, and in both cases a subsequent
`get k` returns `v` while every other key's mapping is unchanged (so over
any sequence of inserts, `get` yields the most recent value per key). -/
theorem C2_insert_behavior (m : HashMap K V) (k : K) (v : V) (hwf : WF hashFn m) :
    ∃ m' r, insert hashFn m k v = some (m', r) ∧
      (∀ v0, model m k = some v0 → r = some v0 ∧ len m' = len m) ∧
      (model m k = none → r = none ∧ len m' = len m + 1) ∧
      get hashFn m' k = some (some v) ∧
      (∀ k', k' ≠ k → model m' k' = model m k') := by
  obtain ⟨m', r, heq, hwf', hr, hm'k, hne, hit, hl, hge⟩ := insert_spec hashFn m k v hwf
  have hpos' : 0 < m'.buckets.length := by
    rw [hl]
    exact grown_length_pos hashFn m
  refine ⟨m', r, heq, ?_, ?_, ?_, hne⟩
  · intro v0 h0
    rw [hr, h0]
    refine ⟨rfl, ?_⟩
    unfold len
    rw [hit, h0]
    rfl
  · intro h0
    rw [hr, h0]
    refine ⟨rfl, ?_⟩
    unfold len
    rw [hit, h0]
    rfl
  · rw [get_eq_model hashFn m' hwf' hpos' k, hm'k]

theorem C2_insert_behavior_witness :
    ∃ m' r, insert (fun n : Nat => n) (HashMap.mk [[(0, 5)]] 1) 0 7 = some (m', r) ∧
      (∀ v0, model (HashMap.mk [[(0, 5)]] 1 : HashMap Nat Nat) 0 = some v0 →
        r = some v0 ∧ len m' = len (HashMap.mk [[(0, 5)]] 1 : HashMap Nat Nat)) ∧
      (model (HashMap.mk [[(0, 5)]] 1 : HashMap Nat Nat) 0 = none →
        r = none ∧ len m' = len (HashMap.mk [[(0, 5)]] 1 : HashMap Nat Nat) + 1) ∧
      get (fun n : Nat => n) m' 0 = some (some 7) ∧
      (∀ k', k' ≠ 0 → model m' k' =
        model (HashMap.mk [[(0, 5)]] 1 : HashMap Nat Nat) k') :=
  C2_insert_behavior (fun n => n) (HashMap.mk [[(0, 5)]] 1) 0 7 (by decide)

/-- C3 counterexample: on the freshly constructed zero-bucket table the
claim fails: `get`, `contains_key` and `remove` all reach
`hash % bucket_count` with `bucket_count = 0`, i.e. they abort with a
divide-by-zero panic (modelled as the outer `none`) instead of returning
the absent value. -/
theorem C3_counterexample :
    get (fun n : Nat => n) (HashMap.new : HashMap Nat Nat) 0 = none ∧
    contains_key (fun n : Nat => n) (HashMap.new : HashMap Nat Nat) 0 = none ∧
    remove (fun n : Nat => n) (HashMap.new : HashMap Nat Nat) 0 = none :=
  ⟨rfl, rfl, rfl⟩

/-- C3 (amended): for every table with at least one bucket, a lookup on an
absent key is an ordinary "nothing found" outcome: `get` returns the absent
value, `contains_key` returns `false`, and `remove` returns the absent
value leaving the table (hence `len()`) unchanged; on the freshly
constructed zero-bucket table these operations instead abort (divide by
zero in the bucket computation). -/
theorem C3_missing_key_lookups (m : HashMap K V) (k : K)
    (hpos : 0 < m.buckets.length) (habs : model m k = none) :
    get hashFn m k = some none ∧
    contains_key hashFn m k = some false ∧
    remove hashFn m k = some (m, none) := by
  have hidx : bucketIdx hashFn m k = some (hashFn k % m.buckets.length) := by
    unfold bucketIdx
    rw [if_neg (by omega)]
  have hilt : hashFn k % m.buckets.length < m.buckets.length := Nat.mod_lt _ hpos
  have hbmem : ∀ p ∈ m.buckets.getD (hashFn k % m.buckets.length) [],
      p ∈ m.buckets.flatten := by
    intro p hp
    rw [List.mem_flatten]
    refine ⟨_, ?_, hp⟩
    rw [List.getD_eq_getElem?_getD, List.getElem?_eq_getElem hilt, Option.getD_some]
    exact List.getElem_mem hilt
  have hfl : m.buckets.flatten.find? (fun p => decide (p.1 = k)) = none := by
    unfold model at habs
    exact Option.map_eq_none.mp habs
  rw [List.find?_eq_none] at hfl
  have hbf : (m.buckets.getD (hashFn k % m.buckets.length) []).find?
      (fun p => decide (p.1 = k)) = none := by
    rw [List.find?_eq_none]
    intro x hx
    exact hfl x (hbmem x hx)
  have hfi : (m.buckets.getD (hashFn k % m.buckets.length) []).findIdx?
      (fun p => decide (p.1 = k)) = none := by
    cases hfi : (m.buckets.getD (hashFn k % m.buckets.length) []).findIdx?
        (fun p => decide (p.1 = k)) with
    | none => rfl
    | some pos =>
      have hlt := findIdx?_lt_length hfi
      have := find?_eq_findIdx?_bind (fun p => decide (p.1 = k))
        (m.buckets.getD (hashFn k % m.buckets.length) [])
      rw [hbf, hfi] at this
      have hsome : (m.buckets.getD (hashFn k % m.buckets.length) [])[pos]? =
          some ((m.buckets.getD (hashFn k % m.buckets.length) []).get ⟨pos, hlt⟩) :=
        List.getElem?_eq_getElem hlt
      rw [show ((some pos).bind fun i =>
          (m.buckets.getD (hashFn k % m.buckets.length) [])[i]?) =
          (m.buckets.getD (hashFn k % m.buckets.length) [])[pos]? from rfl,
        hsome] at this
      exact Option.noConfusion this
  refine ⟨?_, ?_, ?_⟩
  · unfold get
    rw [hidx]
    simp only [hbf]
    rfl
  · unfold contains_key get
    rw [hidx]
    simp only [hbf]
    rfl
  · unfold remove
    rw [hidx]
    simp only [hfi]

theorem C3_missing_key_lookups_witness :
    get (fun n : Nat => n) (HashMap.mk [[(1, 10)]] 1) 0 = some none ∧
    contains_key (fun n : Nat => n) (HashMap.mk [[(1, 10)]] 1) 0 = some false ∧
    remove (fun n : Nat => n) (HashMap.mk [[(1, 10)]] 1) 0 =
      some (HashMap.mk [[(1, 10)]] 1, none) :=
  C3_missing_key_lookups (fun n => n) (HashMap.mk [[(1, 10)]] 1) 0 (by decide) rfl

/-- C4: on every reachable table, immediately after `insert`, after the
entry protocol's `or_insert`, and after `entry` itself, the load-factor
bound `len() ≤ 3 * bucket_count / 4 + 1` holds; the bucket count never
decreases under insert, or_insert, entry, remove, or resize; and `resize`
produces exactly 1 bucket from 0 and otherwise doubles, rehashing every
stored pair (a permutation of the contents, each pair landing in the
bucket selected by its hash modulo the new count). -/
theorem C4_load_factor_and_growth (m : HashMap K V) (h : Reachable hashFn m) :
    (∀ k v m' r, insert hashFn m k v = some (m', r) →
      len m' ≤ 3 * m'.buckets.length / 4 + 1 ∧
      m.buckets.length ≤ m'.buckets.length) ∧
    (∀ k v m' rv, or_insert hashFn m k v = some (m', rv) →
      len m' ≤ 3 * m'.buckets.length / 4 + 1 ∧
      m.buckets.length ≤ m'.buckets.length) ∧
    (∀ k m1 i f, entry hashFn m k = some (m1, i, f) →
      len m1 ≤ 3 * m1.buckets.length / 4 + 1 ∧
      m.buckets.length ≤ m1.buckets.length) ∧
    (∀ k m' r, remove hashFn m k = some (m', r) →
      m'.buckets.length = m.buckets.length) ∧
    ((resize hashFn m).buckets.length =
      if m.buckets.length = 0 then 1 else 2 * m.buckets.length) ∧
    m.buckets.length ≤ (resize hashFn m).buckets.length ∧
    ((resize hashFn m).buckets.flatten).Perm m.buckets.flatten ∧
    (∀ j, j < (resize hashFn m).buckets.length →
      ∀ p ∈ (resize hashFn m).buckets.getD j [],
        hashFn p.1 % (resize hashFn m).buckets.length = j) := by
  obtain ⟨hwf, hli⟩ := reachable_inv hashFn m h
  refine ⟨?_, ?_, ?_, ?_, ?_, resize_length_ge hashFn m,
    resize_flatten_perm hashFn m, ((resize_WF hashFn m hwf).2.1)⟩
  · intro k v m' r heq
    obtain ⟨m'', r', heq', _, _, _, _, hit, hl, hge⟩ := insert_spec hashFn m k v hwf
    rw [heq] at heq'
    injection heq' with hpair
    injection hpair with h1 h2
    subst h1
    have hb := grown_load_bound hashFn m hwf hli
    unfold RESIZE_NUM RESIZE_DEN at hb
    have hitle : m'.items ≤ m.items + 1 := by
      rw [hit]
      split <;> omega
    refine ⟨?_, hge⟩
    unfold len
    rw [hl]
    omega
  · intro k v m' rv heq
    obtain ⟨m'', rv', heq', _, _, _, hl, hge, hle⟩ := or_insert_spec hashFn m k v hwf
    rw [heq] at heq'
    injection heq' with hpair
    injection hpair with h1 h2
    subst h1
    have hb := grown_load_bound hashFn m hwf hli
    unfold RESIZE_NUM RESIZE_DEN at hb
    refine ⟨?_, hge⟩
    unfold len
    rw [hl]
    omega
  · intro k m1 i f heq
    rw [entry_eq] at heq
    injection heq with hpair
    injection hpair with h1 h2
    subst h1
    have hb := grown_load_bound hashFn m hwf hli
    unfold RESIZE_NUM RESIZE_DEN at hb
    have hgl := grown_length_ge hashFn m
    have hgi := grown_items hashFn m
    unfold len
    omega
  · intro k m' r heq
    have hpos : 0 < m.buckets.length := by
      by_contra h0
      have hb0 : bucketIdx hashFn m k = none := by
        unfold bucketIdx
        rw [if_pos (by omega)]
      unfold remove at heq
      rw [hb0] at heq
      exact Option.noConfusion heq
    obtain ⟨m'', heq', _, _, _, _, _, hlen⟩ := remove_spec hashFn m k hwf hpos
    rw [heq] at heq'
    injection heq' with hpair
    injection hpair with h1 h2
    subst h1
    exact hlen
  · rw [resize_length]
    unfold INITIAL_BUCKETS BUCKET_SCALE_FACTOR
    split
    · rfl
    · omega

theorem C4_load_factor_and_growth_witness :
    len (HashMap.mk [[(0, 5)]] 1 : HashMap Nat Nat) ≤
      3 * (HashMap.mk [[(0, 5)]] 1 : HashMap Nat Nat).buckets.length / 4 + 1 ∧
    (HashMap.new : HashMap Nat Nat).buckets.length ≤
      (HashMap.mk [[(0, 5)]] 1 : HashMap Nat Nat).buckets.length :=
  (C4_load_factor_and_growth (fun n => n) HashMap.new Reachable.new).1
    0 5 (HashMap.mk [[(0, 5)]] 1) none rfl

/-- C5: on a well-formed table (every reachable table is well formed) in
which `k` is present with value `v` — presence via `get`, which already
requires the table to have grown at least once — `remove k` returns `v`,
decreases `len()` by exactly one, and afterwards `get k` is absent and
`contains_key k` is false, the swap-removal inside the bucket
notwithstanding. -/
theorem C5_remove_present (m : HashMap K V) (k : K) (v : V) (hwf : WF hashFn m)
    (hpres : get hashFn m k = some (some v)) :
    ∃ m', remove hashFn m k = some (m', some v) ∧
      len m' = len m - 1 ∧ 1 ≤ len m ∧
      get hashFn m' k = some none ∧
      contains_key hashFn m' k = some false := by
  have hpos : 0 < m.buckets.length := by
    by_contra h0
    unfold get bucketIdx at hpres
    rw [if_pos (by omega)] at hpres
    exact Option.noConfusion hpres
  have hmk : model m k = some v := by
    have h := get_eq_model hashFn m hwf hpos k
    rw [hpres] at h
    exact (Option.some_inj.mp h).symm
  obtain ⟨m', heq, hwf', hm'k, _, hitems, _, hlen⟩ := remove_spec hashFn m k hwf hpos
  obtain ⟨hit, hge⟩ := hitems (by rw [hmk]; rfl)
  have hpos' : 0 < m'.buckets.length := by omega
  have hget' : get hashFn m' k = some none := by
    rw [get_eq_model hashFn m' hwf' hpos' k, hm'k]
  refine ⟨m', ?_, hit, hge, hget', ?_⟩
  · rw [← hmk]
    exact heq
  · unfold contains_key
    rw [hget']
    rfl

theorem C5_remove_present_witness :
    ∃ m', remove (fun n : Nat => n) (HashMap.mk [[(0, 5)]] 1) 0 = some (m', some 5) ∧
      len m' = len (HashMap.mk [[(0, 5)]] 1 : HashMap Nat Nat) - 1 ∧
      1 ≤ len (HashMap.mk [[(0, 5)]] 1 : HashMap Nat Nat) ∧
      get (fun n : Nat => n) m' 0 = some none ∧
      contains_key (fun n : Nat => n) m' 0 = some false :=
  C5_remove_present (fun n => n) (HashMap.mk [[(0, 5)]] 1) 0 5 (by decide) rfl

/-- C6: on a well-formed table, `entry(k).or_insert(v)`: when `k` is
present with value `v₀` it returns `v₀` unchanged, discards `v`, and leaves
`len()` and the whole mapping unchanged; when `k` is absent it stores
`(k, v)`, increments `len()` by one, returns `v`, and a subsequent `get k`
returns `v`. -/
theorem C6_or_insert (m : HashMap K V) (k : K) (v : V) (hwf : WF hashFn m) :
    ∃ m' rv, or_insert hashFn m k v = some (m', rv) ∧
      (∀ v0, model m k = some v0 → rv = v0 ∧ len m' = len m ∧
        (∀ k', model m' k' = model m k')) ∧
      (model m k = none → rv = v ∧ len m' = len m + 1 ∧
        get hashFn m' k = some (some v) ∧
        (∀ k', k' ≠ k → model m' k' = model m k')) := by
  obtain ⟨m', rv, heq, hwf', hocc, hvac, hl, hge, hle⟩ := or_insert_spec hashFn m k v hwf
  have hpos' : 0 < m'.buckets.length := by
    rw [hl]
    exact grown_length_pos hashFn m
  refine ⟨m', rv, heq, ?_, ?_⟩
  · intro v0 h0
    obtain ⟨h1, h2, h3⟩ := hocc v0 h0
    exact ⟨h1, h2, h3⟩
  · intro h0
    obtain ⟨h1, h2, h3, h4⟩ := hvac h0
    refine ⟨h1, h2, ?_, h4⟩
    rw [get_eq_model hashFn m' hwf' hpos' k, h3]

theorem C6_or_insert_witness :
    ∃ m' rv, or_insert (fun n : Nat => n) (HashMap.mk [[(0, 5)]] 1) 0 99 =
        some (m', rv) ∧
      (∀ v0, model (HashMap.mk [[(0, 5)]] 1 : HashMap Nat Nat) 0 = some v0 →
        rv = v0 ∧ len m' = len (HashMap.mk [[(0, 5)]] 1 : HashMap Nat Nat) ∧
        (∀ k', model m' k' = model (HashMap.mk [[(0, 5)]] 1 : HashMap Nat Nat) k')) ∧
      (model (HashMap.mk [[(0, 5)]] 1 : HashMap Nat Nat) 0 = none →
        rv = 99 ∧ len m' = len (HashMap.mk [[(0, 5)]] 1 : HashMap Nat Nat) + 1 ∧
        get (fun n : Nat => n) m' 0 = some (some 99) ∧
        (∀ k', k' ≠ 0 → model m' k' =
          model (HashMap.mk [[(0, 5)]] 1 : HashMap Nat Nat) k')) :=
  C6_or_insert (fun n => n) (HashMap.mk [[(0, 5)]] 1) 0 99 (by decide)

/-- C7: the producer passed to `or_insert_with` is never run when the key
is present: with producers modelled as state transformers (so an
invocation would be visible in the threaded state), for any two producers
`f` and `g` the results coincide, the producer state comes back untouched,
and the resulting table is the (growth-checked) input table in both
cases — the outcome is independent of the producer. -/
theorem C7_or_insert_with_lazy (m : HashMap K V) (k : K) (v0 : V)
    (hwf : WF hashFn m) (hpres : model m k = some v0)
    (f g : S → S × V) (s : S) :
    or_insert_with hashFn m k f s = or_insert_with hashFn m k g s ∧
    or_insert_with hashFn m k f s = some (grown hashFn m, v0, s) := by
  obtain ⟨hoccf, _⟩ := or_insert_with_spec hashFn m k f s hwf
  obtain ⟨hoccg, _⟩ := or_insert_with_spec hashFn m k g s hwf
  exact ⟨(hoccf v0 hpres).trans (hoccg v0 hpres).symm, hoccf v0 hpres⟩

theorem C7_or_insert_with_lazy_witness :
    or_insert_with (fun n : Nat => n) (HashMap.mk [[(0, 5)]] 1) 0
        (fun s : Nat => (s + 1, 99)) 0 =
      or_insert_with (fun n : Nat => n) (HashMap.mk [[(0, 5)]] 1) 0
        (fun s : Nat => (s + 7, 42)) 0 ∧
    or_insert_with (fun n : Nat => n) (HashMap.mk [[(0, 5)]] 1) 0
        (fun s : Nat => (s + 1, 99)) 0 =
      some (grown (fun n : Nat => n) (HashMap.mk [[(0, 5)]] 1), 5, 0) :=
  C7_or_insert_with_lazy (fun n => n) (HashMap.mk [[(0, 5)]] 1) 0 5 (by decide)
    (by decide) (fun s => (s + 1, 99)) (fun s => (s + 7, 42)) 0

/-- C8: indexed access agrees with `get` exactly when the key is present
(same value), and aborts (the `expect` panic, modelled as `none`) when the
key is absent; being a pure function of the table, indexing does not
mutate it. -/
theorem C8_index_vs_get (m : HashMap K V) (k : K) :
    (∀ v, index hashFn m k = some v ↔ get hashFn m k = some (some v)) ∧
    (get hashFn m k = some none → index hashFn m k = none) := by
  constructor
  · intro v
    cases hg : get hashFn m k with
    | none => simp [index, hg]
    | some o => cases o <;> simp [index, hg]
  · intro h
    simp [index, h]

theorem C8_index_vs_get_witness :
    index (fun n : Nat => n) (HashMap.mk [[(1, 10)]] 1) 0 = none :=
  (C8_index_vs_get (fun n => n) (HashMap.mk [[(1, 10)]] 1) 0).2 rfl

/-- C9: on a well-formed table (every reachable table is well formed) the
iterator started by `into_iter` emits exactly the flattened bucket
contents — bucket-index ascending, chain-position ascending — which has
exactly `len()` entries with each key appearing exactly once; the emitted
sequence is unique, and at the final cursor `iterNext` is exhausted (and,
the model being pure, stays exhausted on repeated calls). -/
theorem C9_iteration (m : HashMap K V) (hwf : WF hashFn m) :
    ∃ itF, Emits m into_iter m.buckets.flatten itF ∧
      m.buckets.flatten.length = len m ∧
      (m.buckets.flatten.map Prod.fst).Nodup ∧
      iterNext m itF = none ∧
      (∀ l' itF', Emits m into_iter l' itF' → l' = m.buckets.flatten) := by
  obtain ⟨itF, hEm⟩ := emits_exists m
  refine ⟨itF, hEm, (hwf.items_eq hashFn).symm, hwf.nodupKeys hashFn,
    emits_final_none m _ _ _ hEm, ?_⟩
  intro l' itF' h'
  exact emits_unique m into_iter l' m.buckets.flatten itF' itF h' hEm

theorem C9_iteration_witness :
    ∃ itF, Emits (HashMap.mk [[(0, 5)], [(1, 6)]] 2 : HashMap Nat Nat)
        into_iter (HashMap.mk [[(0, 5)], [(1, 6)]] 2 : HashMap Nat Nat).buckets.flatten
        itF ∧
      (HashMap.mk [[(0, 5)], [(1, 6)]] 2 : HashMap Nat Nat).buckets.flatten.length =
        len (HashMap.mk [[(0, 5)], [(1, 6)]] 2 : HashMap Nat Nat) ∧
      ((HashMap.mk [[(0, 5)], [(1, 6)]] 2 : HashMap Nat Nat).buckets.flatten.map
        Prod.fst).Nodup ∧
      iterNext (HashMap.mk [[(0, 5)], [(1, 6)]] 2 : HashMap Nat Nat) itF = none ∧
      (∀ l' itF', Emits (HashMap.mk [[(0, 5)], [(1, 6)]] 2 : HashMap Nat Nat)
        into_iter l' itF' →
        l' = (HashMap.mk [[(0, 5)], [(1, 6)]] 2 : HashMap Nat Nat).buckets.flatten) :=
  C9_iteration (fun n => n) (HashMap.mk [[(0, 5)], [(1, 6)]] 2) (by decide)

/-- C10: the resize predicate already holds on the fresh zero-bucket
table (`0 ≥ 3*0/4`), the growth prelude of `insert`/`entry` therefore
always leaves at least one bucket (from the fresh table: exactly one), so
the `hash % bucket_count` computation reached from `insert` and `entry`
never divides by zero — neither ever returns the panic value — and after
any `insert` or `entry` call the bucket count is at least 1. -/
theorem C10_no_division_by_zero (m : HashMap K V) (k : K) (v : V) :
    resize_pred (HashMap.new : HashMap K V).items
      (HashMap.new : HashMap K V).buckets.length = true ∧
    (grown hashFn (HashMap.new : HashMap K V)).buckets.length = 1 ∧
    (insert hashFn m k v).isSome ∧
    (entry hashFn m k).isSome ∧
    (∀ m' r, insert hashFn m k v = some (m', r) → 1 ≤ m'.buckets.length) ∧
    (∀ m1 i f, entry hashFn m k = some (m1, i, f) →
      1 ≤ m1.buckets.length ∧ i = hashFn k % m1.buckets.length) := by
  have hpred : resize_pred (HashMap.new : HashMap K V).items
      (HashMap.new : HashMap K V).buckets.length = true := by
    show resize_pred 0 0 = true
    decide
  refine ⟨hpred, ?_, ?_, ?_, ?_, ?_⟩
  · show (grown hashFn (HashMap.new : HashMap K V)).buckets.length = 1
    unfold grown
    rw [if_pos hpred, resize_length]
    show (if (0 : Nat) = 0 then INITIAL_BUCKETS else 0 * BUCKET_SCALE_FACTOR) = 1
    rw [if_pos rfl]
    rfl
  · rw [insert_eq_branch]
    cases ((grown hashFn m).buckets.getD
        (hashFn k % (grown hashFn m).buckets.length) []).find?
        (fun p => decide (p.1 = k)) <;> rfl
  · rw [entry_eq]
    rfl
  · intro m' r heq
    rw [insert_eq_branch] at heq
    have hpos := grown_length_pos hashFn m
    cases hf : ((grown hashFn m).buckets.getD
        (hashFn k % (grown hashFn m).buckets.length) []).find?
        (fun p => decide (p.1 = k)) with
    | some q =>
      rw [hf] at heq
      injection heq with hpair
      injection hpair with h1 h2
      rw [← h1]
      simpa using hpos
    | none =>
      rw [hf] at heq
      injection heq with hpair
      injection hpair with h1 h2
      rw [← h1]
      show 1 ≤ ((grown hashFn m).buckets.set _ _).length
      simpa using hpos
  · intro m1 i f heq
    rw [entry_eq] at heq
    injection heq with hpair
    injection hpair with h1 h2
    injection h2 with h2a h2b
    subst h1
    subst h2a
    exact ⟨grown_length_pos hashFn m, rfl⟩

theorem C10_no_division_by_zero_witness :
    1 ≤ (HashMap.mk [[(0, 5)]] 1 : HashMap Nat Nat).buckets.length :=
  (C10_no_division_by_zero (fun n : Nat => n) HashMap.new 0 5).2.2.2.2.1
    (HashMap.mk [[(0, 5)]] 1) none rfl

end LinkedHashMap
